import Mathlib

/-
Verification of the block replication engine (`pkg/replicate/scheme.go`).

The embedding models object-storage buckets as association lists from
paths (lists of name segments) to byte contents.  Destination-bucket
operations thread an explicit state (`St`) carrying the destination
bucket, the Prometheus counters of `replicationMetrics`, and a trace of
the destination I/O operations performed (plus one ghost event per
iteration of `execute`'s transfer loop).  External collaborators that
are consumed as opaque interfaces by the source (the ULID parser
`thanosblock.IsBlockDir`, the metadata fetcher `fetcher.Fetch`, the
label selector, and the possibility of bucket I/O failures) are
parameters of the environment `Env`.  Reading an object and reading the
returned reader to the end (`Get` + `ReadAll` in the source) is modelled
as one step that yields the bytes.
-/

namespace Replicate

abbrev Bytes := List Nat

abbrev Path := List String

abbrev Bucket := List (Path × Bytes)

/-- Association-list lookup of an object by its path. -/
def Bucket.lookup : Bucket → Path → Option Bytes
  | [], _ => none
  | (q, c) :: rest, p => if q = p then some c else Bucket.lookup rest p

/-- Upload semantics of an object store: writing to a path replaces any
object previously stored at that path. -/
def Bucket.insert : Bucket → Path → Bytes → Bucket
  | [], p, b => [(p, b)]
  | (q, c) :: rest, p, b =>
      if q = p then (p, b) :: rest else (q, c) :: Bucket.insert rest p b

/-- Block metadata, flattening the fields of `metadata.Meta` used by the
source: `Thanos.Labels`, `Thanos.Downsample.Resolution`,
`BlockMeta.Compaction.Level`, `BlockMeta.ULID`, `BlockMeta.MinTime`. -/
structure Meta where
  ulid : String
  minTime : Int
  maxTime : Int
  labels : List (String × String)
  resolution : Int
  compactionLevel : Int
deriving DecidableEq, Repr

/-- `BlockFilter` configuration.  The label selector
(`labels.Selector.Matches` composed with `labels.FromMap`) is an
external collaborator and is modelled as an opaque boolean predicate on
the label map. -/
structure BlockFilter where
  labelSelector : List (String × String) → Bool
  resolutionLevels : List Int
  compactionLevels : List Int

/-- `BlockFilter.Filter` from the source: reject on empty labels, then
on selector mismatch, then on disallowed resolution, then on disallowed
compaction level; otherwise accept. -/
def BlockFilter.Filter (bf : BlockFilter) (b : Meta) : Bool :=
  if b.labels.length = 0 then false
  else if !(bf.labelSelector b.labels) then false
  else if !(bf.resolutionLevels.contains b.resolution) then false
  else if !(bf.compactionLevels.contains b.compactionLevel) then false
  else true

/-- Errors.  `notFound` models object-not-found (recognised by
`IsObjNotFoundErr`), `eof` models `io.EOF`, `syncMetaNotFound` models
`thanosblock.ErrorSyncMetaNotFound`, `fault` models any other I/O
failure, and `wrap` models `errors.Wrap`. -/
inductive Err where
  | notFound
  | eof
  | syncMetaNotFound
  | fault (tag : String)
  | wrap (msg : String) (e : Err)
deriving DecidableEq, Repr

/-- `errors.Cause`: strip all wrappers. -/
def Err.cause : Err → Err
  | .wrap _ e => Err.cause e
  | e => e

/-- `IsObjNotFoundErr` applied to a raw (unwrapped) bucket error. -/
def Err.isNotFound : Err → Bool
  | .notFound => true
  | _ => false

/-- Observable events on the destination bucket, plus one ghost
`beginBlock` event per iteration of the transfer loop in `execute`
(recording which block transfer starts, with its sort key). -/
inductive Event where
  | existsCheck (p : Path)
  | get (p : Path)
  | upload (p : Path) (b : Bytes)
  | beginBlock (minTime : Int) (ulid : String)
deriving DecidableEq, Repr

/-- The six counters of `replicationMetrics`. -/
structure replicationMetrics where
  originIterations : Nat := 0
  originMetaLoads : Nat := 0
  originPartialMeta : Nat := 0
  blocksAlreadyReplicated : Nat := 0
  blocksReplicated : Nat := 0
  objectsReplicated : Nat := 0
deriving DecidableEq, Repr

/-- Mutable state threaded through a pass: the destination bucket, the
metrics counters, and the event trace. -/
structure St where
  toBkt : Bucket
  metrics : replicationMetrics
  trace : List Event
deriving DecidableEq, Repr

/-- The environment of a pass: the origin bucket, the external
collaborators consumed as interfaces (`IsBlockDir`, `fetcher.Fetch`, the
block filter function), and fault-injection switches describing which
bucket operations fail. -/
structure Env where
  fromBkt : Bucket
  parseBlock : String → Option String
  fetch : Except Err (List (String × Meta))
  blockFilter : Meta → Bool
  failFromGet : Path → Bool
  failExists : Path → Bool
  failToGet : Path → Option Err
  failUpload : Path → Bool

/-- An environment whose bucket operations never fail spuriously:
origin reads, destination existence checks, destination reads and
destination uploads behave exactly according to bucket contents. -/
def Env.Honest (env : Env) : Prop :=
  (∀ p, env.failFromGet p = false) ∧ (∀ p, env.failExists p = false) ∧
  (∀ p, env.failToGet p = none) ∧ (∀ p, env.failUpload p = false)

/-- `fromBkt.Get` followed by reading the stream to the end. -/
def fromGet (env : Env) (p : Path) : Except Err Bytes :=
  if env.failFromGet p then .error (.fault "origin read")
  else
    match Bucket.lookup env.fromBkt p with
    | some c => .ok c
    | none => .error .notFound

/-- `toBkt.Exists`. -/
def dstExists (env : Env) (st : St) (p : Path) : Except Err Bool × St :=
  (if env.failExists p then .error (.fault "exists")
   else .ok (Bucket.lookup st.toBkt p).isSome,
   { st with trace := st.trace ++ [Event.existsCheck p] })

/-- `toBkt.Get` followed by reading the stream to the end. -/
def dstGet (env : Env) (st : St) (p : Path) : Except Err Bytes × St :=
  (match env.failToGet p with
   | some e => .error e
   | none =>
     match Bucket.lookup st.toBkt p with
     | some c => .ok c
     | none => .error .notFound,
   { st with trace := st.trace ++ [Event.get p] })

/-- `toBkt.Upload`. -/
def dstUpload (env : Env) (st : St) (p : Path) (b : Bytes) : Except Err Unit × St :=
  if env.failUpload p then
    (.error (.fault "upload"), { st with trace := st.trace ++ [Event.upload p b] })
  else
    (.ok (), { st with toBkt := Bucket.insert st.toBkt p b,
                       trace := st.trace ++ [Event.upload p b] })

/-- `ensureObjectReplicated`: check existence in the destination; if
present, short-circuit to success; otherwise copy the object from the
origin to the destination under the same path and count it. -/
def ensureObjectReplicated (env : Env) (st : St) (objectName : Path) :
    Except Err Unit × St :=
  match dstExists env st objectName with
  | (.error e, st) => (.error (.wrap "check if object exists in target bucket" e), st)
  | (.ok true, st) => (.ok (), st)
  | (.ok false, st) =>
    match fromGet env objectName with
    | .error e => (.error (.wrap "get object from origin bucket" e), st)
    | .ok content =>
      match dstUpload env st objectName content with
      | (.error e, st) => (.error (.wrap "upload object to target bucket" e), st)
      | (.ok _, st) =>
        (.ok (), { st with metrics :=
          { st.metrics with objectsReplicated := st.metrics.objectsReplicated + 1 } })

/-- The object names yielded by `fromBkt.Iter` over the block's
`chunks/` directory: the origin paths under `id/chunks/`. -/
def chunkObjects (env : Env) (id : String) : List Path :=
  (env.fromBkt.map Prod.fst).filter (fun p => p.take 2 = [id, "chunks"])

/-- The chunk phase of `ensureBlockIsReplicated`: `fromBkt.Iter` over
the chunks directory, running `ensureObjectReplicated` on each object;
a callback error aborts the iteration and is returned as is (the
callback itself wraps it with the object name). -/
def replicateChunks (env : Env) : St → List Path → Except Err Unit × St
  | st, [] => (.ok (), st)
  | st, p :: rest =>
    match ensureObjectReplicated env st p with
    | (.error e, st) => (.error (.wrap "replicate object" e), st)
    | (.ok _, st) => replicateChunks env st rest

/-- The transfer tail of `ensureBlockIsReplicated` (reached when the
destination has no byte-identical `meta.json`): replicate every chunk
object, then the index file, then upload the origin `meta.json` bytes
as the final commit step and count the block as replicated. -/
def replicateBlockObjects (env : Env) (st : St) (id : String)
    (originMetaFileContent : Bytes) : Except Err Unit × St :=
  match replicateChunks env st (chunkObjects env id) with
  | (.error e, st) => (.error e, st)
  | (.ok _, st) =>
    match ensureObjectReplicated env st [id, "index"] with
    | (.error e, st) => (.error (.wrap "replicate index file" e), st)
    | (.ok _, st) =>
      match dstUpload env st [id, "meta.json"] originMetaFileContent with
      | (.error e, st) => (.error (.wrap "upload meta file" e), st)
      | (.ok _, st) =>
        (.ok (), { st with metrics :=
          { st.metrics with blocksReplicated := st.metrics.blocksReplicated + 1 } })

/-- `ensureBlockIsReplicated`.  Read the origin `meta.json`; read the
destination `meta.json`, where not-found (or `io.EOF`) is not an error;
if the destination copy exists and is byte-identical, count the block as
already replicated and stop; otherwise run the transfer tail.  (In the
source, the guard at the comparison checks the `err` variable that was
reassigned by reading the origin meta file — necessarily `nil` there —
so the comparison is reached exactly when the destination `Get`
succeeded.) -/
def ensureBlockIsReplicated (env : Env) (st : St) (id : String) :
    Except Err Unit × St :=
  match fromGet env [id, "meta.json"] with
  | .error e => (.error (.wrap "get meta file from origin bucket" e), st)
  | .ok originMetaFileContent =>
    match dstGet env st [id, "meta.json"] with
    | (.error e, st) =>
      if e.isNotFound || e == .eof then
        replicateBlockObjects env st id originMetaFileContent
      else
        (.error (.wrap "get meta file from target bucket" e), st)
    | (.ok targetMetaFileContent, st) =>
      if originMetaFileContent = targetMetaFileContent then
        (.ok (), { st with metrics :=
          { st.metrics with blocksAlreadyReplicated := st.metrics.blocksAlreadyReplicated + 1 } })
      else
        replicateBlockObjects env st id originMetaFileContent

/-- Lookup in the mapping returned by `fetcher.Fetch`. -/
def lookupMeta : List (String × Meta) → String → Option Meta
  | [], _ => none
  | (k, m) :: rest, id => if k = id then some m else lookupMeta rest id

/-- `loadMeta`: returns the meta, whether the failure (if any) means the
block is partial or missing, and the error.  A fetch failure whose cause
is `ErrorSyncMetaNotFound`, or an identifier absent from the fetched
mapping, is reported as partial-or-missing; any other fetch failure is a
hard error.  (When the identifier is absent, the source wraps a `nil`
error, which stays `nil`.) -/
def loadMeta (env : Env) (id : String) : Option Meta × Bool × Option Err :=
  match env.fetch with
  | .error err =>
    match err.cause with
    | .syncMetaNotFound => (none, true, some (.wrap "fetch meta" err))
    | _ => (none, false, some (.wrap "fetch meta" err))
  | .ok metas =>
    match lookupMeta metas id with
    | none => (none, true, none)
    | some m => (some m, false, none)

/-- The names yielded by `fromBkt.Iter` at the top level: the first
path segment of each stored object, each reported once, in order of
first appearance. -/
def topLevelNames (ps : List Path) : List String :=
  ps.foldl (fun acc p =>
    let h := p.headD ""
    if acc.contains h then acc else acc ++ [h]) []

/-- The discovery loop of `execute`: for each top-level name, count the
iteration; if the name parses as a block directory, count the meta load
and resolve the descriptor via `loadMeta`; partial-or-missing metadata
is counted and skipped; a hard load error aborts; blocks with empty
labels are skipped; remaining descriptors accumulate in order. -/
def scanBlocks (env : Env) : St → List String → List Meta →
    Except Err (List Meta) × St
  | st, [], acc => (.ok acc, st)
  | st, name :: rest, acc =>
    let st := { st with metrics :=
      { st.metrics with originIterations := st.metrics.originIterations + 1 } }
    match env.parseBlock name with
    | none => scanBlocks env st rest acc
    | some id =>
      let st := { st with metrics :=
        { st.metrics with originMetaLoads := st.metrics.originMetaLoads + 1 } }
      match loadMeta env id with
      | (_, true, _) =>
        scanBlocks env
          { st with metrics :=
            { st.metrics with originPartialMeta := st.metrics.originPartialMeta + 1 } }
          rest acc
      | (some m, false, none) =>
        if m.labels.length = 0 then scanBlocks env st rest acc
        else scanBlocks env st rest (acc ++ [m])
      | (_, false, some e) =>
        (.error (.wrap "load meta for block from origin bucket" e), st)
      | (none, false, none) => (.error (.fault "nil meta"), st)

/-- The result component of the discovery loop, which does not depend on
the threaded state. -/
def scanPure (env : Env) : List String → List Meta → Except Err (List Meta)
  | [], acc => .ok acc
  | name :: rest, acc =>
    match env.parseBlock name with
    | none => scanPure env rest acc
    | some id =>
      match loadMeta env id with
      | (_, true, _) => scanPure env rest acc
      | (some m, false, none) =>
        if m.labels.length = 0 then scanPure env rest acc
        else scanPure env rest (acc ++ [m])
      | (_, false, some e) =>
        .error (.wrap "load meta for block from origin bucket" e)
      | (none, false, none) => .error (.fault "nil meta")

/-- Insertion step of the candidate sort (`sort.Slice` with the
comparator `minTime i < minTime j`). -/
def insertByMinTime (m : Meta) : List Meta → List Meta
  | [] => [m]
  | x :: xs => if m.minTime < x.minTime then m :: x :: xs else x :: insertByMinTime m xs

/-- The candidate sort: ascending by `minTime`. -/
def sortByMinTime : List Meta → List Meta
  | [] => []
  | x :: xs => insertByMinTime x (sortByMinTime xs)

/-- Ghost instrumentation: record that the transfer loop starts the
block transfer of candidate `b`. -/
def logBegin (st : St) (b : Meta) : St :=
  { st with trace := st.trace ++ [Event.beginBlock b.minTime b.ulid] }

/-- The transfer loop of `execute`: sequentially run
`ensureBlockIsReplicated` on each candidate; the first failure aborts
the loop with the wrapped error.  Each loop iteration records a ghost
`beginBlock` event. -/
def replicateAll (env : Env) : St → List Meta → Except Err Unit × St
  | st, [] => (.ok (), st)
  | st, b :: rest =>
    match ensureBlockIsReplicated env (logBegin st b) b.ulid with
    | (.error e, st) => (.error (.wrap "ensure block is replicated" e), st)
    | (.ok _, st) => replicateAll env st rest

/-- `execute`: discover available blocks, filter them into candidates,
sort candidates ascending by `minTime`, and transfer them in order. -/
def execute (env : Env) (st : St) : Except Err Unit × St :=
  match scanBlocks env st (topLevelNames (env.fromBkt.map Prod.fst)) [] with
  | (.error e, st) => (.error (.wrap "iterate over origin bucket" e), st)
  | (.ok availableBlocks, st) =>
    replicateAll env st (sortByMinTime (availableBlocks.filter env.blockFilter))

/-- The sorted candidate list of a pass, as a pure function of the
environment. -/
def candidatesOf (env : Env) : Except Err (List Meta) :=
  (scanPure env (topLevelNames (env.fromBkt.map Prod.fst)) []).map
    (fun l => sortByMinTime (l.filter env.blockFilter))

/-- The block-transfer (ghost) events of a trace, in order: one
`(minTime, ulid)` pair per `beginBlock` event. -/
def beginsOf : List Event → List (Int × String)
  | [] => []
  | .beginBlock t u :: rest => (t, u) :: beginsOf rest
  | _ :: rest => beginsOf rest

/-- The exact events of a pass whose every candidate is already
committed: per candidate, the ghost `beginBlock` event followed by the
single destination read of its `meta.json`. -/
def pass2Events : List Meta → List Event
  | [] => []
  | b :: rest =>
    Event.beginBlock b.minTime b.ulid :: Event.get [b.ulid, "meta.json"] :: pass2Events rest

/-- The block `b` is committed in the destination bucket `bkt`: the
destination holds a `meta.json` for it that is byte-identical to the
origin's (which exists). -/
def MetaOK (env : Env) (bkt : Bucket) (b : Meta) : Prop :=
  Bucket.lookup bkt [b.ulid, "meta.json"] = Bucket.lookup env.fromBkt [b.ulid, "meta.json"] ∧
  (Bucket.lookup env.fromBkt [b.ulid, "meta.json"]).isSome = true

/-- The initial state of a second pass over the same source: the
destination bucket left by the first pass, with fresh metric counters
and a fresh trace. -/
def secondPassState (env : Env) (st : St) (m₂ : replicationMetrics) (tr₂ : List Event) : St :=
  { toBkt := (execute env st).2.toBkt, metrics := m₂, trace := tr₂ }

/- Concrete instances used to evaluate the development on closed
inputs. -/

/-- A block descriptor for block `b`. -/
def metaB : Meta :=
  { ulid := "b", minTime := 0, maxTime := 10, labels := [("cluster", "x")],
    resolution := 0, compactionLevel := 1 }

/-- An honest environment whose origin holds the complete block `b`. -/
def envA : Env :=
  { fromBkt := [(["b", "chunks", "000001"], [1]), (["b", "index"], [2]), (["b", "meta.json"], [3])]
  , parseBlock := fun n => if n = "b" then some "b" else none
  , fetch := .ok [("b", metaB)]
  , blockFilter := fun _ => true
  , failFromGet := fun _ => false
  , failExists := fun _ => false
  , failToGet := fun _ => none
  , failUpload := fun _ => false }

/-- An empty initial state. -/
def st0 : St := { toBkt := [], metrics := {}, trace := [] }

/-- A destination already holding block `b`'s `meta.json` with the
origin's bytes. -/
def stE : St := { toBkt := [(["b", "meta.json"], [3])], metrics := {}, trace := [] }

/-- A destination already holding block `b`'s chunk object, with bytes
that differ from the origin's. -/
def stG : St := { toBkt := [(["b", "chunks", "000001"], [9])], metrics := {}, trace := [] }

/-- Like `envA`, but uploads of block `b`'s index file fail. -/
def envD : Env :=
  { fromBkt := [(["b", "chunks", "000001"], [1]), (["b", "index"], [2]), (["b", "meta.json"], [3])]
  , parseBlock := fun n => if n = "b" then some "b" else none
  , fetch := .ok [("b", metaB)]
  , blockFilter := fun _ => true
  , failFromGet := fun _ => false
  , failExists := fun _ => false
  , failToGet := fun _ => none
  , failUpload := fun p => p == ["b", "index"] }

/-- Block descriptors for blocks `a`, `c`, `d` with distinct time
ranges. -/
def metaA4 : Meta :=
  { ulid := "a", minTime := 1, maxTime := 2, labels := [("cluster", "x")],
    resolution := 0, compactionLevel := 1 }

def metaC4 : Meta :=
  { ulid := "c", minTime := 2, maxTime := 3, labels := [("cluster", "x")],
    resolution := 0, compactionLevel := 1 }

def metaD4 : Meta :=
  { ulid := "d", minTime := 3, maxTime := 4, labels := [("cluster", "x")],
    resolution := 0, compactionLevel := 1 }

/-- An honest environment with three candidate blocks where the middle
candidate (by `minTime`) is missing its index object in the origin, so
its block transfer fails. -/
def envB : Env :=
  { fromBkt := [(["a", "index"], [2]), (["a", "meta.json"], [3]), (["c", "meta.json"], [4]),
      (["d", "index"], [5]), (["d", "meta.json"], [6])]
  , parseBlock := fun n =>
      if n = "a" then some "a" else if n = "c" then some "c"
      else if n = "d" then some "d" else none
  , fetch := .ok [("a", metaA4), ("c", metaC4), ("d", metaD4)]
  , blockFilter := fun _ => true
  , failFromGet := fun _ => false
  , failExists := fun _ => false
  , failToGet := fun _ => none
  , failUpload := fun _ => false }

/-- Like `envA`, but the metadata fetch fails with a non-`sync` error. -/
def envF : Env :=
  { fromBkt := [(["b", "meta.json"], [3])]
  , parseBlock := fun n => if n = "b" then some "b" else none
  , fetch := .error (.fault "boom")
  , blockFilter := fun _ => true
  , failFromGet := fun _ => false
  , failExists := fun _ => false
  , failToGet := fun _ => none
  , failUpload := fun _ => false }

/-- An origin holding block `b` without chunk objects. -/
def envC : Env :=
  { fromBkt := [(["b", "index"], [2]), (["b", "meta.json"], [3])]
  , parseBlock := fun n => if n = "b" then some "b" else none
  , fetch := .ok [("b", metaB)]
  , blockFilter := fun _ => true
  , failFromGet := fun _ => false
  , failExists := fun _ => false
  , failToGet := fun _ => none
  , failUpload := fun _ => false }

/-- A destination already holding block `b`'s index and a `meta.json`
whose bytes differ from the origin's. -/
def stC : St :=
  { toBkt := [(["b", "meta.json"], [9]), (["b", "index"], [2])], metrics := {}, trace := [] }

theorem lookup_insert (bkt : Bucket) (p : Path) (b : Bytes) (q : Path) :
    Bucket.lookup (Bucket.insert bkt p b) q = if p = q then some b else Bucket.lookup bkt q := by
  induction bkt with
  | nil => simp [Bucket.insert, Bucket.lookup]
  | cons hd tl ih =>
    obtain ⟨q₀, c₀⟩ := hd
    by_cases h : q₀ = p
    · subst h
      by_cases h2 : q₀ = q <;> simp [Bucket.insert, Bucket.lookup, h2]
    · by_cases h2 : q₀ = q
      · subst h2
        have : ¬ p = q₀ := fun hh => h hh.symm
        simp [Bucket.insert, Bucket.lookup, h, this]
      · simp [Bucket.insert, Bucket.lookup, h, h2, ih]

/-- Claim C5: `BlockFilter.Filter` returns true iff the labels are
non-empty, the selector matches, the resolution is allowed and the
compaction level is allowed — a pure conjunction, so evaluation order
cannot change the outcome. -/
theorem claim_C5_filter_conjunction (bf : BlockFilter) (b : Meta) :
    bf.Filter b = true ↔
      (b.labels ≠ [] ∧ bf.labelSelector b.labels = true ∧
       b.resolution ∈ bf.resolutionLevels ∧ b.compactionLevel ∈ bf.compactionLevels) := by
  unfold BlockFilter.Filter
  split_ifs with h1 h2 h3 h4
  · simp at h1
    simp [h1]
  · simp at h2
    simp [h2]
  · simp at h3
    constructor
    · intro h; cases h
    · rintro ⟨-, -, hm, -⟩
      exact absurd ((List.elem_iff).mpr hm) (by simp [h3])
  · simp at h4
    constructor
    · intro h; cases h
    · rintro ⟨-, -, -, hm⟩
      exact absurd ((List.elem_iff).mpr hm) (by simp [h4])
  · simp only [true_iff]
    refine ⟨?_, ?_, ?_, ?_⟩
    · intro hnil; simp [hnil] at h1
    · simpa using h2
    · simpa [List.elem_iff] using h3
    · simpa [List.elem_iff] using h4

theorem eor_master (env : Env) (st : St) (p : Path) :
    (∃ e, ensureObjectReplicated env st p =
        (.error e, { st with trace := st.trace ++ [Event.existsCheck p] })) ∨
    (ensureObjectReplicated env st p =
        (.ok (), { st with trace := st.trace ++ [Event.existsCheck p] }) ∧
      ∃ c, Bucket.lookup st.toBkt p = some c) ∨
    (∃ e c, ensureObjectReplicated env st p =
        (.error e, { st with trace := st.trace ++ [Event.existsCheck p, Event.upload p c] }) ∧
      Bucket.lookup st.toBkt p = none) ∨
    (∃ c, ensureObjectReplicated env st p =
        (.ok (), { st with toBkt := Bucket.insert st.toBkt p c,
                           metrics := { st.metrics with objectsReplicated := st.metrics.objectsReplicated + 1 },
                           trace := st.trace ++ [Event.existsCheck p, Event.upload p c] }) ∧
      Bucket.lookup st.toBkt p = none ∧ fromGet env p = .ok c) := by
  by_cases hfe : env.failExists p
  · refine Or.inl ⟨Err.wrap "check if object exists in target bucket" (Err.fault "exists"), ?_⟩
    simp [ensureObjectReplicated, dstExists, hfe]
  · cases hl : Bucket.lookup st.toBkt p with
    | some c =>
      refine Or.inr (Or.inl ⟨?_, c, rfl⟩)
      simp [ensureObjectReplicated, dstExists, hfe, hl]
    | none =>
      cases hfg : fromGet env p with
      | error e =>
        refine Or.inl ⟨Err.wrap "get object from origin bucket" e, ?_⟩
        simp [ensureObjectReplicated, dstExists, hfe, hl, hfg]
      | ok content =>
        by_cases hfu : env.failUpload p
        · refine Or.inr (Or.inr (Or.inl
            ⟨Err.wrap "upload object to target bucket" (Err.fault "upload"), content, ?_, rfl⟩))
          simp [ensureObjectReplicated, dstExists, hfe, hl, hfg, dstUpload, hfu]
        · refine Or.inr (Or.inr (Or.inr ⟨content, ?_, rfl, rfl⟩))
          simp [ensureObjectReplicated, dstExists, hfe, hl, hfg, dstUpload, hfu]

theorem eor_toBkt_pres (env : Env) (st : St) (p q : Path) (c : Bytes)
    (h : Bucket.lookup st.toBkt q = some c) :
    Bucket.lookup (ensureObjectReplicated env st p).2.toBkt q = some c := by
  rcases eor_master env st p with ⟨e, he⟩ | ⟨he, -⟩ | ⟨e, c', he, -⟩ | ⟨c', he, hnone, -⟩
  · rw [he]; exact h
  · rw [he]; exact h
  · rw [he]; exact h
  · rw [he]
    show Bucket.lookup (Bucket.insert st.toBkt p c') q = some c
    rw [lookup_insert]
    rcases eq_or_ne p q with hpq | hpq
    · subst hpq; rw [hnone] at h; cases h
    · rw [if_neg hpq]; exact h

theorem eor_toBkt_other (env : Env) (st : St) (p q : Path) (hne : q ≠ p) :
    Bucket.lookup (ensureObjectReplicated env st p).2.toBkt q = Bucket.lookup st.toBkt q := by
  rcases eor_master env st p with ⟨e, he⟩ | ⟨he, -⟩ | ⟨e, c', he, -⟩ | ⟨c', he, -, -⟩
  · rw [he]
  · rw [he]
  · rw [he]
  · rw [he]
    show Bucket.lookup (Bucket.insert st.toBkt p c') q = Bucket.lookup st.toBkt q
    rw [lookup_insert, if_neg (fun hh => hne hh.symm)]

theorem eor_blockCounters (env : Env) (st : St) (p : Path) :
    (ensureObjectReplicated env st p).2.metrics.blocksAlreadyReplicated =
      st.metrics.blocksAlreadyReplicated ∧
    (ensureObjectReplicated env st p).2.metrics.blocksReplicated =
      st.metrics.blocksReplicated := by
  rcases eor_master env st p with ⟨e, he⟩ | ⟨he, -⟩ | ⟨e, c', he, -⟩ | ⟨c', he, -, -⟩ <;>
    rw [he] <;> exact ⟨rfl, rfl⟩

theorem eor_traceE (env : Env) (st : St) (p : Path) :
    ∃ tr, (ensureObjectReplicated env st p).2.trace = st.trace ++ tr ∧ beginsOf tr = [] := by
  rcases eor_master env st p with ⟨e, he⟩ | ⟨he, -⟩ | ⟨e, c', he, -⟩ | ⟨c', he, -, -⟩ <;> rw [he]
  · exact ⟨_, rfl, rfl⟩
  · exact ⟨_, rfl, rfl⟩
  · exact ⟨_, rfl, rfl⟩
  · exact ⟨_, rfl, rfl⟩
theorem fromGet_ok (env : Env) (p : Path) (c : Bytes) (h : fromGet env p = .ok c) :
    Bucket.lookup env.fromBkt p = some c ∧ env.failFromGet p = false := by
  unfold fromGet at h
  by_cases hf : env.failFromGet p
  · rw [if_pos hf] at h; cases h
  · rw [if_neg hf] at h
    cases hl : Bucket.lookup env.fromBkt p with
    | some c0 => rw [hl] at h; cases h; exact ⟨rfl, by simpa using hf⟩
    | none => rw [hl] at h; cases h

theorem dstUpload_master (env : Env) (st : St) (p : Path) (b : Bytes) :
    (env.failUpload p = true ∧ dstUpload env st p b =
      (.error (.fault "upload"), { st with trace := st.trace ++ [Event.upload p b] })) ∨
    (env.failUpload p = false ∧ dstUpload env st p b =
      (.ok (), { st with toBkt := Bucket.insert st.toBkt p b,
                         trace := st.trace ++ [Event.upload p b] })) := by
  by_cases h : env.failUpload p
  · exact Or.inl ⟨h, by simp [dstUpload, h]⟩
  · exact Or.inr ⟨by simpa using h, by simp [dstUpload, h]⟩

theorem beginsOf_append (a b : List Event) :
    beginsOf (a ++ b) = beginsOf a ++ beginsOf b := by
  induction a with
  | nil => rfl
  | cons e rest ih => cases e <;> simp [beginsOf, ih]

theorem pair_path_ne (id x y : String) (h : x ≠ y) : ([id, x] : Path) ≠ [id, y] := by
  intro he
  simp only [List.cons.injEq, and_true] at he
  exact h he.2

theorem chunk_take (env : Env) (id : String) (p : Path) (h : p ∈ chunkObjects env id) :
    p.take 2 = [id, "chunks"] := by
  unfold chunkObjects at h
  have h2 := (List.mem_filter.mp h).2
  simpa using h2

theorem chunk_head (env : Env) (id : String) (p : Path) (h : p ∈ chunkObjects env id) :
    p.head? = some id := by
  have h3 := chunk_take env id p h
  cases p with
  | nil => simp at h3
  | cons a t =>
    rw [show ((a :: t).take 2) = a :: t.take 1 from rfl] at h3
    simp only [List.cons.injEq] at h3
    simp [h3.1]

theorem chunk_ne_meta (env : Env) (id : String) (p : Path) (h : p ∈ chunkObjects env id) :
    p ≠ [id, "meta.json"] := by
  intro hp
  have h3 := chunk_take env id p h
  subst hp
  rw [show (([id, "meta.json"] : Path).take 2) = [id, "meta.json"] from rfl] at h3
  simp only [List.cons.injEq] at h3
  exact absurd h3.2.1 (by decide)

theorem rc_toBkt_pres (env : Env) (ps : List Path) : ∀ (st : St) (q : Path) (c : Bytes),
    Bucket.lookup st.toBkt q = some c →
    Bucket.lookup (replicateChunks env st ps).2.toBkt q = some c := by
  induction ps with
  | nil => intro st q c h; exact h
  | cons p rest ih =>
    intro st q c h
    have h1 := eor_toBkt_pres env st p q c h
    rcases he : ensureObjectReplicated env st p with ⟨r, st1⟩
    rw [he] at h1
    unfold replicateChunks
    rw [he]
    cases r with
    | error e => exact h1
    | ok u => exact ih st1 q c h1

theorem rc_frame (env : Env) (ps : List Path) : ∀ (st : St) (q : Path),
    (∀ p ∈ ps, p ≠ q) →
    Bucket.lookup (replicateChunks env st ps).2.toBkt q = Bucket.lookup st.toBkt q := by
  induction ps with
  | nil => intro st q _; rfl
  | cons p rest ih =>
    intro st q hne
    have h1 := eor_toBkt_other env st p q (fun hq => hne p (List.mem_cons_self p rest) hq.symm)
    rcases he : ensureObjectReplicated env st p with ⟨r, st1⟩
    rw [he] at h1
    unfold replicateChunks
    rw [he]
    cases r with
    | error e => exact h1
    | ok u =>
      rw [ih st1 q (fun p' hp' => hne p' (List.mem_cons_of_mem p hp'))]
      exact h1

theorem rc_blockCounters (env : Env) (ps : List Path) : ∀ (st : St),
    (replicateChunks env st ps).2.metrics.blocksAlreadyReplicated =
      st.metrics.blocksAlreadyReplicated ∧
    (replicateChunks env st ps).2.metrics.blocksReplicated =
      st.metrics.blocksReplicated := by
  induction ps with
  | nil => intro st; exact ⟨rfl, rfl⟩
  | cons p rest ih =>
    intro st
    have h1 := eor_blockCounters env st p
    rcases he : ensureObjectReplicated env st p with ⟨r, st1⟩
    rw [he] at h1
    unfold replicateChunks
    rw [he]
    cases r with
    | error e => exact h1
    | ok u =>
      obtain ⟨ha, hb⟩ := ih st1
      exact ⟨ha.trans h1.1, hb.trans h1.2⟩

theorem rc_traceE (env : Env) (ps : List Path) : ∀ (st : St),
    ∃ tr, (replicateChunks env st ps).2.trace = st.trace ++ tr ∧ beginsOf tr = [] := by
  induction ps with
  | nil => intro st; exact ⟨[], by simp [replicateChunks], rfl⟩
  | cons p rest ih =>
    intro st
    obtain ⟨tr1, htr1, hb1⟩ := eor_traceE env st p
    rcases he : ensureObjectReplicated env st p with ⟨r, st1⟩
    rw [he] at htr1
    unfold replicateChunks
    rw [he]
    cases r with
    | error e => exact ⟨tr1, htr1, hb1⟩
    | ok u =>
      obtain ⟨tr2, htr2, hb2⟩ := ih st1
      refine ⟨tr1 ++ tr2, ?_, ?_⟩
      · rw [htr2, htr1, List.append_assoc]
      · rw [beginsOf_append, hb1, hb2]; rfl
theorem rbo_ok_meta (env : Env) (st : St) (id : String) (c : Bytes)
    (h : (replicateBlockObjects env st id c).1 = .ok ()) :
    Bucket.lookup (replicateBlockObjects env st id c).2.toBkt [id, "meta.json"] = some c := by
  rcases h1 : replicateChunks env st (chunkObjects env id) with ⟨r1, st1⟩
  cases r1 with
  | error e => simp [replicateBlockObjects, h1] at h
  | ok u =>
    rcases h2 : ensureObjectReplicated env st1 [id, "index"] with ⟨r2, st2⟩
    cases r2 with
    | error e => simp [replicateBlockObjects, h1, h2] at h
    | ok u2 =>
      rcases dstUpload_master env st2 [id, "meta.json"] c with ⟨hfu, hup⟩ | ⟨hfu, hup⟩
      · simp [replicateBlockObjects, h1, h2, hup] at h
      · simp only [replicateBlockObjects, h1, h2, hup]
        show Bucket.lookup (Bucket.insert st2.toBkt [id, "meta.json"] c) [id, "meta.json"] = some c
        rw [lookup_insert, if_pos rfl]

theorem rbo_pres (env : Env) (st : St) (id : String) (c : Bytes) (q : Path) (c0 : Bytes)
    (h : Bucket.lookup st.toBkt q = some c0) :
    Bucket.lookup (replicateBlockObjects env st id c).2.toBkt q = some c0 ∨
    (q = [id, "meta.json"] ∧
      Bucket.lookup (replicateBlockObjects env st id c).2.toBkt q = some c) := by
  rcases h1 : replicateChunks env st (chunkObjects env id) with ⟨r1, st1⟩
  have hp1 : Bucket.lookup st1.toBkt q = some c0 := by
    have := rc_toBkt_pres env (chunkObjects env id) st q c0 h
    rwa [h1] at this
  cases r1 with
  | error e => simp only [replicateBlockObjects, h1]; exact Or.inl hp1
  | ok u =>
    rcases h2 : ensureObjectReplicated env st1 [id, "index"] with ⟨r2, st2⟩
    have hp2 : Bucket.lookup st2.toBkt q = some c0 := by
      have := eor_toBkt_pres env st1 [id, "index"] q c0 hp1
      rwa [h2] at this
    cases r2 with
    | error e => simp only [replicateBlockObjects, h1, h2]; exact Or.inl hp2
    | ok u2 =>
      rcases dstUpload_master env st2 [id, "meta.json"] c with ⟨hfu, hup⟩ | ⟨hfu, hup⟩
      · simp only [replicateBlockObjects, h1, h2, hup]; exact Or.inl hp2
      · simp only [replicateBlockObjects, h1, h2, hup]
        rcases eq_or_ne q ([id, "meta.json"] : Path) with hq | hq
        · refine Or.inr ⟨hq, ?_⟩
          show Bucket.lookup (Bucket.insert st2.toBkt [id, "meta.json"] c) q = some c
          rw [lookup_insert, if_pos hq.symm]
        · refine Or.inl ?_
          show Bucket.lookup (Bucket.insert st2.toBkt [id, "meta.json"] c) q = some c0
          rw [lookup_insert, if_neg (fun hh => hq hh.symm)]
          exact hp2

theorem rbo_frame (env : Env) (st : St) (id : String) (c : Bytes) (q : Path)
    (hq : q.head? ≠ some id) :
    Bucket.lookup (replicateBlockObjects env st id c).2.toBkt q = Bucket.lookup st.toBkt q := by
  have hqchunk : ∀ p ∈ chunkObjects env id, p ≠ q :=
    fun p hp hpq => hq (hpq ▸ chunk_head env id p hp)
  have hqm : q ≠ [id, "meta.json"] := fun hh => hq (by rw [hh]; rfl)
  rcases h1 : replicateChunks env st (chunkObjects env id) with ⟨r1, st1⟩
  have hp1 : Bucket.lookup st1.toBkt q = Bucket.lookup st.toBkt q := by
    have := rc_frame env (chunkObjects env id) st q hqchunk
    rwa [h1] at this
  cases r1 with
  | error e => simp only [replicateBlockObjects, h1]; exact hp1
  | ok u =>
    rcases h2 : ensureObjectReplicated env st1 [id, "index"] with ⟨r2, st2⟩
    have hp2 : Bucket.lookup st2.toBkt q = Bucket.lookup st.toBkt q := by
      have := eor_toBkt_other env st1 [id, "index"] q
        (fun hh => hq (by rw [hh]; rfl))
      rw [h2] at this
      exact this.trans hp1
    cases r2 with
    | error e => simp only [replicateBlockObjects, h1, h2]; exact hp2
    | ok u2 =>
      rcases dstUpload_master env st2 [id, "meta.json"] c with ⟨hfu, hup⟩ | ⟨hfu, hup⟩
      · simp only [replicateBlockObjects, h1, h2, hup]; exact hp2
      · simp only [replicateBlockObjects, h1, h2, hup]
        show Bucket.lookup (Bucket.insert st2.toBkt [id, "meta.json"] c) q = _
        rw [lookup_insert, if_neg (fun hh => hqm hh.symm)]
        exact hp2

theorem rbo_meta_none (env : Env) (st : St) (id : String) (c : Bytes) (e' : Err)
    (hm : Bucket.lookup st.toBkt [id, "meta.json"] = none)
    (he : (replicateBlockObjects env st id c).1 = .error e') :
    Bucket.lookup (replicateBlockObjects env st id c).2.toBkt [id, "meta.json"] = none := by
  have hqchunk : ∀ p ∈ chunkObjects env id, p ≠ ([id, "meta.json"] : Path) :=
    fun p hp => chunk_ne_meta env id p hp
  rcases h1 : replicateChunks env st (chunkObjects env id) with ⟨r1, st1⟩
  have hp1 : Bucket.lookup st1.toBkt [id, "meta.json"] = none := by
    have := rc_frame env (chunkObjects env id) st [id, "meta.json"] hqchunk
    rw [h1] at this
    exact this.trans hm
  cases r1 with
  | error e => simp only [replicateBlockObjects, h1]; exact hp1
  | ok u =>
    rcases h2 : ensureObjectReplicated env st1 [id, "index"] with ⟨r2, st2⟩
    have hp2 : Bucket.lookup st2.toBkt [id, "meta.json"] = none := by
      have := eor_toBkt_other env st1 [id, "index"] [id, "meta.json"]
        (pair_path_ne id "meta.json" "index" (by decide))
      rw [h2] at this
      exact this.trans hp1
    cases r2 with
    | error e => simp only [replicateBlockObjects, h1, h2]; exact hp2
    | ok u2 =>
      rcases dstUpload_master env st2 [id, "meta.json"] c with ⟨hfu, hup⟩ | ⟨hfu, hup⟩
      · simp only [replicateBlockObjects, h1, h2, hup]; exact hp2
      · simp [replicateBlockObjects, h1, h2, hup] at he

theorem rbo_counters (env : Env) (st : St) (id : String) (c : Bytes) :
    (replicateBlockObjects env st id c).2.metrics.blocksAlreadyReplicated =
      st.metrics.blocksAlreadyReplicated ∧
    ((replicateBlockObjects env st id c).1 = .ok () →
      (replicateBlockObjects env st id c).2.metrics.blocksReplicated =
        st.metrics.blocksReplicated + 1) ∧
    (∀ e, (replicateBlockObjects env st id c).1 = .error e →
      (replicateBlockObjects env st id c).2.metrics.blocksReplicated =
        st.metrics.blocksReplicated) := by
  rcases h1 : replicateChunks env st (chunkObjects env id) with ⟨r1, st1⟩
  have hc1 := rc_blockCounters env (chunkObjects env id) st
  rw [h1] at hc1
  cases r1 with
  | error e =>
    simp only [replicateBlockObjects, h1]
    exact ⟨hc1.1, fun h => by simp at h, fun e' _ => hc1.2⟩
  | ok u =>
    rcases h2 : ensureObjectReplicated env st1 [id, "index"] with ⟨r2, st2⟩
    have hc2 := eor_blockCounters env st1 [id, "index"]
    rw [h2] at hc2
    cases r2 with
    | error e =>
      simp only [replicateBlockObjects, h1, h2]
      exact ⟨hc2.1.trans hc1.1, fun h => by simp at h, fun e' _ => hc2.2.trans hc1.2⟩
    | ok u2 =>
      rcases dstUpload_master env st2 [id, "meta.json"] c with ⟨hfu, hup⟩ | ⟨hfu, hup⟩
      · simp only [replicateBlockObjects, h1, h2, hup]
        exact ⟨hc2.1.trans hc1.1, fun h => by simp at h, fun e' _ => hc2.2.trans hc1.2⟩
      · simp only [replicateBlockObjects, h1, h2, hup]
        refine ⟨hc2.1.trans hc1.1, fun _ => ?_, fun e' h => by simp at h⟩
        show st2.metrics.blocksReplicated + 1 = st.metrics.blocksReplicated + 1
        rw [hc2.2.trans hc1.2]

theorem rbo_traceE (env : Env) (st : St) (id : String) (c : Bytes) :
    ∃ tr, (replicateBlockObjects env st id c).2.trace = st.trace ++ tr ∧ beginsOf tr = [] := by
  rcases h1 : replicateChunks env st (chunkObjects env id) with ⟨r1, st1⟩
  obtain ⟨tr1, htr1, hb1⟩ := rc_traceE env (chunkObjects env id) st
  rw [h1] at htr1
  cases r1 with
  | error e => simp only [replicateBlockObjects, h1]; exact ⟨tr1, htr1, hb1⟩
  | ok u =>
    rcases h2 : ensureObjectReplicated env st1 [id, "index"] with ⟨r2, st2⟩
    obtain ⟨tr2, htr2, hb2⟩ := eor_traceE env st1 [id, "index"]
    rw [h2] at htr2
    have htr12 : st2.trace = st.trace ++ (tr1 ++ tr2) := by
      rw [htr2, htr1, List.append_assoc]
    have hb12 : beginsOf (tr1 ++ tr2) = [] := by
      rw [beginsOf_append, hb1, hb2]; rfl
    cases r2 with
    | error e => simp only [replicateBlockObjects, h1, h2]; exact ⟨tr1 ++ tr2, htr12, hb12⟩
    | ok u2 =>
      rcases dstUpload_master env st2 [id, "meta.json"] c with ⟨hfu, hup⟩ | ⟨hfu, hup⟩ <;>
        simp only [replicateBlockObjects, h1, h2, hup]
      · refine ⟨tr1 ++ tr2 ++ [Event.upload [id, "meta.json"] c], ?_, ?_⟩
        · show st2.trace ++ [Event.upload [id, "meta.json"] c] = _
          rw [htr12, List.append_assoc]
        · rw [beginsOf_append, hb12]; rfl
      · refine ⟨tr1 ++ tr2 ++ [Event.upload [id, "meta.json"] c], ?_, ?_⟩
        · show st2.trace ++ [Event.upload [id, "meta.json"] c] = _
          rw [htr12, List.append_assoc]
        · rw [beginsOf_append, hb12]; rfl
theorem ensure_cases (env : Env) (st : St) (id : String) :
    (∃ e, ensureBlockIsReplicated env st id =
        (.error (.wrap "get meta file from origin bucket" e), st)) ∨
    (∃ c e, fromGet env [id, "meta.json"] = .ok c ∧
      ensureBlockIsReplicated env st id =
        (.error (.wrap "get meta file from target bucket" e),
         { st with trace := st.trace ++ [Event.get [id, "meta.json"]] })) ∨
    (∃ c, fromGet env [id, "meta.json"] = .ok c ∧
      Bucket.lookup st.toBkt [id, "meta.json"] = some c ∧
      ensureBlockIsReplicated env st id =
        (.ok (), { st with
          metrics := { st.metrics with blocksAlreadyReplicated := st.metrics.blocksAlreadyReplicated + 1 },
          trace := st.trace ++ [Event.get [id, "meta.json"]] })) ∨
    (∃ c, fromGet env [id, "meta.json"] = .ok c ∧
      ensureBlockIsReplicated env st id =
        replicateBlockObjects env
          { st with trace := st.trace ++ [Event.get [id, "meta.json"]] } id c) := by
  cases hfg : fromGet env [id, "meta.json"] with
  | error e =>
    refine Or.inl ⟨e, ?_⟩
    simp [ensureBlockIsReplicated, hfg]
  | ok c =>
    cases hft : env.failToGet [id, "meta.json"] with
    | some e =>
      by_cases hsoft : e.isNotFound || e == Err.eof
      · refine Or.inr (Or.inr (Or.inr ⟨c, rfl, ?_⟩))
        simp [ensureBlockIsReplicated, hfg, dstGet, hft, hsoft]
      · refine Or.inr (Or.inl ⟨c, e, rfl, ?_⟩)
        simp only [Bool.not_eq_true] at hsoft
        simp [ensureBlockIsReplicated, hfg, dstGet, hft, hsoft]
    | none =>
      cases hl : Bucket.lookup st.toBkt [id, "meta.json"] with
      | none =>
        refine Or.inr (Or.inr (Or.inr ⟨c, rfl, ?_⟩))
        simp [ensureBlockIsReplicated, hfg, dstGet, hft, hl, Err.isNotFound]
      | some t =>
        by_cases heq : c = t
        · refine Or.inr (Or.inr (Or.inl ⟨c, rfl, ?_, ?_⟩))
          · rw [heq]
          · simp [ensureBlockIsReplicated, hfg, dstGet, hft, hl, heq]
        · refine Or.inr (Or.inr (Or.inr ⟨c, rfl, ?_⟩))
          simp [ensureBlockIsReplicated, hfg, dstGet, hft, hl, heq]
theorem ensure_ok_meta (env : Env) (st : St) (id : String)
    (h : (ensureBlockIsReplicated env st id).1 = .ok ()) :
    Bucket.lookup (ensureBlockIsReplicated env st id).2.toBkt [id, "meta.json"] =
      Bucket.lookup env.fromBkt [id, "meta.json"] ∧
    (Bucket.lookup env.fromBkt [id, "meta.json"]).isSome = true := by
  rcases ensure_cases env st id with ⟨e, he⟩ | ⟨c, e, hfg, he⟩ | ⟨c, hfg, hl, he⟩ | ⟨c, hfg, he⟩
  · rw [he] at h; simp at h
  · rw [he] at h; simp at h
  · obtain ⟨hsrc, -⟩ := fromGet_ok env [id, "meta.json"] c hfg
    rw [he]
    exact ⟨by rw [hsrc]; exact hl, by rw [hsrc]; rfl⟩
  · obtain ⟨hsrc, -⟩ := fromGet_ok env [id, "meta.json"] c hfg
    rw [he] at h ⊢
    have hmeta := rbo_ok_meta env
      { st with trace := st.trace ++ [Event.get [id, "meta.json"]] } id c h
    rw [hsrc]
    exact ⟨hmeta, rfl⟩

theorem ensure_frame (env : Env) (st : St) (id : String) (q : Path)
    (hq : q.head? ≠ some id) :
    Bucket.lookup (ensureBlockIsReplicated env st id).2.toBkt q =
      Bucket.lookup st.toBkt q := by
  rcases ensure_cases env st id with ⟨e, he⟩ | ⟨c, e, hfg, he⟩ | ⟨c, hfg, hl, he⟩ | ⟨c, hfg, he⟩ <;>
    rw [he]
  exact rbo_frame env { st with trace := st.trace ++ [Event.get [id, "meta.json"]] } id c q hq

theorem ensure_pres (env : Env) (st : St) (id : String) (q : Path) (c0 : Bytes)
    (h : Bucket.lookup st.toBkt q = some c0) :
    Bucket.lookup (ensureBlockIsReplicated env st id).2.toBkt q = some c0 ∨
    (∃ c1, q = [id, "meta.json"] ∧ Bucket.lookup env.fromBkt q = some c1 ∧ c1 ≠ c0 ∧
      Bucket.lookup (ensureBlockIsReplicated env st id).2.toBkt q = some c1) := by
  rcases ensure_cases env st id with ⟨e, he⟩ | ⟨c, e, hfg, he⟩ | ⟨c, hfg, hl, he⟩ | ⟨c, hfg, he⟩
  · rw [he]; exact Or.inl h
  · rw [he]; exact Or.inl h
  · rw [he]; exact Or.inl h
  · obtain ⟨hsrc, -⟩ := fromGet_ok env [id, "meta.json"] c hfg
    rw [he]
    have hpres := rbo_pres env
      { st with trace := st.trace ++ [Event.get [id, "meta.json"]] } id c q c0 h
    rcases hpres with hL | ⟨hq, hR⟩
    · exact Or.inl hL
    · by_cases hcc : c = c0
      · subst hcc; exact Or.inl hR
      · exact Or.inr ⟨c, hq, by rw [hq]; exact hsrc, hcc, hR⟩

theorem ensure_counters (env : Env) (st : St) (id : String) :
    ((ensureBlockIsReplicated env st id).1 = .ok () →
      ((ensureBlockIsReplicated env st id).2.metrics.blocksAlreadyReplicated =
          st.metrics.blocksAlreadyReplicated + 1 ∧
        (ensureBlockIsReplicated env st id).2.metrics.blocksReplicated =
          st.metrics.blocksReplicated) ∨
      ((ensureBlockIsReplicated env st id).2.metrics.blocksAlreadyReplicated =
          st.metrics.blocksAlreadyReplicated ∧
        (ensureBlockIsReplicated env st id).2.metrics.blocksReplicated =
          st.metrics.blocksReplicated + 1)) ∧
    (∀ e, (ensureBlockIsReplicated env st id).1 = .error e →
      (ensureBlockIsReplicated env st id).2.metrics.blocksAlreadyReplicated =
        st.metrics.blocksAlreadyReplicated ∧
      (ensureBlockIsReplicated env st id).2.metrics.blocksReplicated =
        st.metrics.blocksReplicated) := by
  rcases ensure_cases env st id with ⟨e, he⟩ | ⟨c, e, hfg, he⟩ | ⟨c, hfg, hl, he⟩ | ⟨c, hfg, he⟩ <;>
    rw [he]
  · exact ⟨fun h => by simp at h, fun e' _ => ⟨rfl, rfl⟩⟩
  · exact ⟨fun h => by simp at h, fun e' _ => ⟨rfl, rfl⟩⟩
  · exact ⟨fun _ => Or.inl ⟨rfl, rfl⟩, fun e' h => by simp at h⟩
  · obtain ⟨ha, hok, herr⟩ := rbo_counters env
      { st with trace := st.trace ++ [Event.get [id, "meta.json"]] } id c
    exact ⟨fun h => Or.inr ⟨ha, hok h⟩, fun e' h => ⟨ha, herr e' h⟩⟩

theorem ensure_traceE (env : Env) (st : St) (id : String) :
    ∃ tr, (ensureBlockIsReplicated env st id).2.trace = st.trace ++ tr ∧ beginsOf tr = [] := by
  rcases ensure_cases env st id with ⟨e, he⟩ | ⟨c, e, hfg, he⟩ | ⟨c, hfg, hl, he⟩ | ⟨c, hfg, he⟩ <;>
    rw [he]
  · exact ⟨[], by simp, rfl⟩
  · exact ⟨[Event.get [id, "meta.json"]], rfl, rfl⟩
  · exact ⟨[Event.get [id, "meta.json"]], rfl, rfl⟩
  · obtain ⟨tr, htr, hb⟩ := rbo_traceE env
      { st with trace := st.trace ++ [Event.get [id, "meta.json"]] } id c
    refine ⟨[Event.get [id, "meta.json"]] ++ tr, ?_, ?_⟩
    · rw [htr]
      show (st.trace ++ [Event.get [id, "meta.json"]]) ++ tr = _
      rw [List.append_assoc]
    · rw [beginsOf_append, hb]; rfl

theorem ensure_short (env : Env) (st : St) (id : String) (c : Bytes)
    (hfg : env.failFromGet [id, "meta.json"] = false)
    (hsrc : Bucket.lookup env.fromBkt [id, "meta.json"] = some c)
    (hft : env.failToGet [id, "meta.json"] = none)
    (hdst : Bucket.lookup st.toBkt [id, "meta.json"] = some c) :
    ensureBlockIsReplicated env st id =
      (.ok (), { st with
        metrics := { st.metrics with blocksAlreadyReplicated := st.metrics.blocksAlreadyReplicated + 1 },
        trace := st.trace ++ [Event.get [id, "meta.json"]] }) := by
  simp [ensureBlockIsReplicated, fromGet, hfg, hsrc, dstGet, hft, hdst]

theorem ensure_meta_none (env : Env) (st : St) (id : String) (e' : Err)
    (hm : Bucket.lookup st.toBkt [id, "meta.json"] = none)
    (he : (ensureBlockIsReplicated env st id).1 = .error e') :
    Bucket.lookup (ensureBlockIsReplicated env st id).2.toBkt [id, "meta.json"] = none := by
  rcases ensure_cases env st id with ⟨e, hee⟩ | ⟨c, e, hfg, hee⟩ | ⟨c, hfg, hl, hee⟩ | ⟨c, hfg, hee⟩
  · rw [hee]; exact hm
  · rw [hee]; exact hm
  · rw [hl] at hm; cases hm
  · rw [hee] at he ⊢
    exact rbo_meta_none env
      { st with trace := st.trace ++ [Event.get [id, "meta.json"]] } id c e' hm he
theorem loadMeta_hard (env : Env) (e : Err) (hf : env.fetch = .error e)
    (hns : e.cause ≠ .syncMetaNotFound) (id : String) :
    loadMeta env id = (none, false, some (.wrap "fetch meta" e)) := by
  cases hc : e.cause with
  | syncMetaNotFound => exact absurd hc hns
  | notFound => simp [loadMeta, hf, hc]
  | eof => simp [loadMeta, hf, hc]
  | fault t => simp [loadMeta, hf, hc]
  | wrap m e2 => simp [loadMeta, hf, hc]

theorem loadMeta_sync (env : Env) (e : Err) (hf : env.fetch = .error e)
    (hs : e.cause = .syncMetaNotFound) (id : String) :
    loadMeta env id = (none, true, some (.wrap "fetch meta" e)) := by
  simp [loadMeta, hf, hs]

theorem loadMeta_absent (env : Env) (ms : List (String × Meta)) (hf : env.fetch = .ok ms)
    (id : String) (hlk : lookupMeta ms id = none) :
    loadMeta env id = (none, true, none) := by
  simp [loadMeta, hf, hlk]

theorem loadMeta_found (env : Env) (ms : List (String × Meta)) (hf : env.fetch = .ok ms)
    (id : String) (m : Meta) (hlk : lookupMeta ms id = some m) :
    loadMeta env id = (some m, false, none) := by
  simp [loadMeta, hf, hlk]

theorem scan_fst (env : Env) : ∀ (names : List String) (st : St) (acc : List Meta),
    (scanBlocks env st names acc).1 = scanPure env names acc := by
  intro names
  induction names with
  | nil => intro st acc; rfl
  | cons name rest ih =>
    intro st acc
    cases hp : env.parseBlock name with
    | none =>
      simp only [scanBlocks, scanPure, hp]
      exact ih _ _
    | some id =>
      rcases hl : loadMeta env id with ⟨om, bb, oe⟩
      cases bb
      · cases oe with
        | some e => simp [scanBlocks, scanPure, hp, hl]
        | none =>
          cases om with
          | some m =>
            by_cases hlab : m.labels.length = 0
            · simp only [scanBlocks, scanPure, hp, hl, if_pos hlab]
              exact ih _ _
            · simp only [scanBlocks, scanPure, hp, hl, if_neg hlab]
              exact ih _ _
          | none => simp [scanBlocks, scanPure, hp, hl]
      · simp only [scanBlocks, scanPure, hp, hl]
        exact ih _ _

theorem scan_state (env : Env) : ∀ (names : List String) (st : St) (acc : List Meta),
    (scanBlocks env st names acc).2.toBkt = st.toBkt ∧
    (scanBlocks env st names acc).2.trace = st.trace ∧
    (scanBlocks env st names acc).2.metrics.blocksAlreadyReplicated =
      st.metrics.blocksAlreadyReplicated ∧
    (scanBlocks env st names acc).2.metrics.blocksReplicated =
      st.metrics.blocksReplicated ∧
    (scanBlocks env st names acc).2.metrics.objectsReplicated =
      st.metrics.objectsReplicated := by
  intro names
  induction names with
  | nil => intro st acc; exact ⟨rfl, rfl, rfl, rfl, rfl⟩
  | cons name rest ih =>
    intro st acc
    cases hp : env.parseBlock name with
    | none =>
      simp only [scanBlocks, hp]
      exact ih _ _
    | some id =>
      rcases hl : loadMeta env id with ⟨om, bb, oe⟩
      cases bb
      · cases oe with
        | some e =>
          simp [scanBlocks, hp, hl]
        | none =>
          cases om with
          | some m =>
            by_cases hlab : m.labels.length = 0
            · simp only [scanBlocks, hp, hl, if_pos hlab]
              exact ih _ _
            · simp only [scanBlocks, hp, hl, if_neg hlab]
              exact ih _ _
          | none =>
            simp [scanBlocks, hp, hl]
      · simp only [scanBlocks, hp, hl]
        exact ih _ _

theorem scan_hard_error (env : Env) (e : Err) (hf : env.fetch = .error e)
    (hns : e.cause ≠ .syncMetaNotFound) :
    ∀ (names : List String) (st : St) (acc : List Meta),
      (∃ n ∈ names, (env.parseBlock n).isSome = true) →
      (scanBlocks env st names acc).1 =
        .error (.wrap "load meta for block from origin bucket" (.wrap "fetch meta" e)) := by
  intro names
  induction names with
  | nil => intro st acc h; simp at h
  | cons name rest ih =>
    intro st acc h
    cases hp : env.parseBlock name with
    | none =>
      simp only [scanBlocks, hp]
      refine ih _ _ ?_
      rcases h with ⟨n, hn, hsome⟩
      rcases List.mem_cons.mp hn with hn1 | hn2
      · subst hn1; rw [hp] at hsome; cases hsome
      · exact ⟨n, hn2, hsome⟩
    | some id =>
      have hl := loadMeta_hard env e hf hns id
      simp [scanBlocks, hp, hl]

theorem scan_skip_step (env : Env) (st : St) (name : String) (rest : List String)
    (acc : List Meta) (id : String) (hp : env.parseBlock name = some id)
    (hpart : (loadMeta env id).2.1 = true) :
    scanBlocks env st (name :: rest) acc =
      scanBlocks env
        { st with metrics := { st.metrics with
            originIterations := st.metrics.originIterations + 1,
            originMetaLoads := st.metrics.originMetaLoads + 1,
            originPartialMeta := st.metrics.originPartialMeta + 1 } }
        rest acc := by
  rcases hl : loadMeta env id with ⟨om, bb, oe⟩
  rw [hl] at hpart
  have hb : bb = true := hpart
  subst hb
  simp [scanBlocks, hp, hl]

theorem execute_scan_error (env : Env) (st : St) (e0 : Err)
    (h : scanPure env (topLevelNames (env.fromBkt.map Prod.fst)) [] = .error e0) :
    (execute env st).1 = .error (.wrap "iterate over origin bucket" e0) := by
  rcases hs : scanBlocks env st (topLevelNames (env.fromBkt.map Prod.fst)) [] with ⟨r, st2⟩
  have hr : r = .error e0 := by
    have h2 := scan_fst env (topLevelNames (env.fromBkt.map Prod.fst)) st []
    rw [hs] at h2
    exact h2.trans h
  subst hr
  simp [execute, hs]
theorem replicateAll_append (env : Env) : ∀ (l₁ : List Meta) (st st' : St) (l₂ : List Meta),
    replicateAll env st l₁ = (.ok (), st') →
    replicateAll env st (l₁ ++ l₂) = replicateAll env st' l₂ := by
  intro l₁
  induction l₁ with
  | nil =>
    intro st st' l₂ h
    simp only [replicateAll] at h
    injection h with h1 h2
    subst h2
    simp
  | cons b rest ih =>
    intro st st' l₂ h
    rcases he : ensureBlockIsReplicated env (logBegin st b) b.ulid with ⟨r, st1⟩
    cases r with
    | error e => simp [replicateAll, he] at h
    | ok u =>
      simp only [replicateAll, he] at h
      simp only [List.cons_append, replicateAll, he]
      exact ih st1 st' l₂ h

theorem replicateAll_traceE (env : Env) : ∀ (l : List Meta) (st : St),
    ∃ tr k, (replicateAll env st l).2.trace = st.trace ++ tr ∧
      beginsOf tr = (l.map (fun b => (b.minTime, b.ulid))).take k ∧
      ((replicateAll env st l).1 = .ok () →
        beginsOf tr = l.map (fun b => (b.minTime, b.ulid))) := by
  intro l
  induction l with
  | nil =>
    intro st
    exact ⟨[], 0, by simp [replicateAll], rfl, fun _ => rfl⟩
  | cons b rest ih =>
    intro st
    rcases he : ensureBlockIsReplicated env (logBegin st b) b.ulid with ⟨r, st1⟩
    obtain ⟨tr0, htr0, hb0⟩ := ensure_traceE env (logBegin st b) b.ulid
    rw [he] at htr0
    have htr0s : st1.trace = st.trace ++ (Event.beginBlock b.minTime b.ulid :: tr0) := by
      rw [htr0]
      show (st.trace ++ [Event.beginBlock b.minTime b.ulid]) ++ tr0 = _
      rw [List.append_assoc]
      rfl
    cases r with
    | error e =>
      refine ⟨Event.beginBlock b.minTime b.ulid :: tr0, 1, ?_, ?_, ?_⟩
      · simp only [replicateAll, he]
        exact htr0s
      · show (b.minTime, b.ulid) :: beginsOf tr0 = _
        rw [hb0]
        simp
      · intro hok
        simp [replicateAll, he] at hok
    | ok u =>
      obtain ⟨tr1, k1, htr1, hbk, hbok⟩ := ih st1
      refine ⟨Event.beginBlock b.minTime b.ulid :: (tr0 ++ tr1), k1 + 1, ?_, ?_, ?_⟩
      · simp only [replicateAll, he]
        rw [htr1, htr0s]
        simp [List.append_assoc]
      · show (b.minTime, b.ulid) :: beginsOf (tr0 ++ tr1) = _
        rw [beginsOf_append, hb0]
        simp only [List.nil_append, List.map_cons]
        rw [hbk]
        rfl
      · intro hok
        simp only [replicateAll, he] at hok
        show (b.minTime, b.ulid) :: beginsOf (tr0 ++ tr1) = _
        rw [beginsOf_append, hb0]
        simp only [List.nil_append, List.map_cons]
        rw [hbok hok]

theorem ensure_MetaOK_pres (env : Env) (st : St) (id : String) (b : Meta)
    (hok : (ensureBlockIsReplicated env st id).1 = .ok ())
    (h : MetaOK env st.toBkt b) :
    MetaOK env (ensureBlockIsReplicated env st id).2.toBkt b := by
  by_cases hid : id = b.ulid
  · refine ⟨?_, ?_⟩
    · rw [← hid]
      exact (ensure_ok_meta env st id hok).1
    · rw [← hid]
      exact (ensure_ok_meta env st id hok).2
  · obtain ⟨h1, h2⟩ := h
    refine ⟨?_, h2⟩
    rw [ensure_frame env st id [b.ulid, "meta.json"] ?_]
    · exact h1
    · intro hh
      rw [show ([b.ulid, "meta.json"] : Path).head? = some b.ulid from rfl] at hh
      exact hid (Option.some.inj hh).symm

theorem replicateAll_MetaOK_pres (env : Env) : ∀ (l : List Meta) (st st' : St) (b : Meta),
    replicateAll env st l = (.ok (), st') → MetaOK env st.toBkt b →
    MetaOK env st'.toBkt b := by
  intro l
  induction l with
  | nil =>
    intro st st' b h hm
    simp only [replicateAll] at h
    injection h with h1 h2
    subst h2
    exact hm
  | cons b0 rest ih =>
    intro st st' b h hm
    rcases he : ensureBlockIsReplicated env (logBegin st b0) b0.ulid with ⟨r, st1⟩
    cases r with
    | error e => simp [replicateAll, he] at h
    | ok u =>
      simp only [replicateAll, he] at h
      have hok : (ensureBlockIsReplicated env (logBegin st b0) b0.ulid).1 = .ok () := by
        rw [he]
      have hstep := ensure_MetaOK_pres env (logBegin st b0) b0.ulid b hok hm
      rw [he] at hstep
      exact ih st1 st' b h hstep

theorem replicateAll_ok_MetaOK (env : Env) : ∀ (l : List Meta) (st st' : St),
    replicateAll env st l = (.ok (), st') → ∀ b ∈ l, MetaOK env st'.toBkt b := by
  intro l
  induction l with
  | nil => intro st st' h b hb; simp at hb
  | cons b0 rest ih =>
    intro st st' h b hb
    rcases he : ensureBlockIsReplicated env (logBegin st b0) b0.ulid with ⟨r, st1⟩
    cases r with
    | error e => simp [replicateAll, he] at h
    | ok u =>
      simp only [replicateAll, he] at h
      have hok : (ensureBlockIsReplicated env (logBegin st b0) b0.ulid).1 = .ok () := by
        rw [he]
      rcases List.mem_cons.mp hb with hb1 | hb2
      · obtain ⟨h1, h2⟩ := ensure_ok_meta env (logBegin st b0) b0.ulid hok
        rw [he] at h1
        have hm1 : MetaOK env st1.toBkt b0 := ⟨h1, h2⟩
        rw [hb1]
        exact replicateAll_MetaOK_pres env rest st1 st' b0 h hm1
      · exact ih st1 st' h b hb2

theorem pass2Events_no_upload (p : Path) (c : Bytes) : ∀ (l : List Meta),
    Event.upload p c ∉ pass2Events l := by
  intro l
  induction l with
  | nil => simp [pass2Events]
  | cons b rest ih => simp [pass2Events, ih]

theorem replicateAll_allMeta (env : Env) (hh : env.Honest) : ∀ (l : List Meta) (st : St),
    (∀ b ∈ l, MetaOK env st.toBkt b) →
    (replicateAll env st l).1 = .ok () ∧
    (replicateAll env st l).2.toBkt = st.toBkt ∧
    (replicateAll env st l).2.trace = st.trace ++ pass2Events l ∧
    (replicateAll env st l).2.metrics.blocksAlreadyReplicated =
      st.metrics.blocksAlreadyReplicated + l.length ∧
    (replicateAll env st l).2.metrics.blocksReplicated = st.metrics.blocksReplicated ∧
    (replicateAll env st l).2.metrics.objectsReplicated = st.metrics.objectsReplicated := by
  intro l
  induction l with
  | nil =>
    intro st h
    refine ⟨rfl, rfl, by simp [replicateAll, pass2Events], rfl, rfl, rfl⟩
  | cons b rest ih =>
    intro st h
    obtain ⟨h1, h2⟩ := h b (List.mem_cons_self b rest)
    cases hc : Bucket.lookup env.fromBkt [b.ulid, "meta.json"] with
    | none => rw [hc] at h2; cases h2
    | some c =>
      have hdst : Bucket.lookup (logBegin st b).toBkt [b.ulid, "meta.json"] = some c := by
        show Bucket.lookup st.toBkt [b.ulid, "meta.json"] = some c
        rw [h1, hc]
      have hshort := ensure_short env (logBegin st b) b.ulid c (hh.1 _) hc (hh.2.2.1 _) hdst
      have hMetaRest : ∀ b' ∈ rest,
          MetaOK env ({ logBegin st b with
            metrics := { (logBegin st b).metrics with
              blocksAlreadyReplicated := (logBegin st b).metrics.blocksAlreadyReplicated + 1 },
            trace := (logBegin st b).trace ++ [Event.get [b.ulid, "meta.json"]] } : St).toBkt b' :=
        fun b' hb' => h b' (List.mem_cons_of_mem b hb')
      obtain ⟨i1, i2, i3, i4, i5, i6⟩ := ih _ hMetaRest
      simp only [replicateAll, hshort]
      refine ⟨i1, i2, ?_, ?_, i5, i6⟩
      · rw [i3]
        show ((st.trace ++ [Event.beginBlock b.minTime b.ulid]) ++
            [Event.get [b.ulid, "meta.json"]]) ++ pass2Events rest = _
        simp [pass2Events, List.append_assoc]
      · rw [i4]
        show (st.metrics.blocksAlreadyReplicated + 1) + rest.length = _
        simp [List.length_cons]
        omega
theorem replicateAll_pres (env : Env) : ∀ (l : List Meta) (st : St) (q : Path) (c0 : Bytes),
    Bucket.lookup st.toBkt q = some c0 →
    Bucket.lookup (replicateAll env st l).2.toBkt q = some c0 ∨
    (∃ id c1, q = [id, "meta.json"] ∧ Bucket.lookup env.fromBkt q = some c1 ∧ c1 ≠ c0 ∧
      Bucket.lookup (replicateAll env st l).2.toBkt q = some c1) := by
  intro l
  induction l with
  | nil => intro st q c0 h; exact Or.inl h
  | cons b rest ih =>
    intro st q c0 h
    rcases he : ensureBlockIsReplicated env (logBegin st b) b.ulid with ⟨r, st1⟩
    have hstep := ensure_pres env (logBegin st b) b.ulid q c0 h
    rw [he] at hstep
    cases r with
    | error e =>
      simp only [replicateAll, he]
      rcases hstep with hL | ⟨c1, hq, hsrc, hne, hR⟩
      · exact Or.inl hL
      · exact Or.inr ⟨b.ulid, c1, hq, hsrc, hne, hR⟩
    | ok u =>
      simp only [replicateAll, he]
      rcases hstep with hL | ⟨c1, hq, hsrc, hne, hR⟩
      · exact ih st1 q c0 hL
      · rcases ih st1 q c1 hR with h2 | ⟨id2, c2, hq2, hsrc2, hne2, h2⟩
        · exact Or.inr ⟨b.ulid, c1, hq, hsrc, hne, h2⟩
        · rw [hsrc2] at hsrc
          exact absurd (Option.some.inj hsrc) hne2

theorem execute_pres (env : Env) (st : St) (q : Path) (c0 : Bytes)
    (h : Bucket.lookup st.toBkt q = some c0) :
    Bucket.lookup (execute env st).2.toBkt q = some c0 ∨
    (∃ id c1, q = [id, "meta.json"] ∧ Bucket.lookup env.fromBkt q = some c1 ∧ c1 ≠ c0 ∧
      Bucket.lookup (execute env st).2.toBkt q = some c1) := by
  rcases hs : scanBlocks env st (topLevelNames (env.fromBkt.map Prod.fst)) [] with ⟨r, st1⟩
  have hbkt : st1.toBkt = st.toBkt := by
    have h2 := (scan_state env (topLevelNames (env.fromBkt.map Prod.fst)) st []).1
    rw [hs] at h2
    exact h2
  cases r with
  | error e =>
    simp only [execute, hs]
    refine Or.inl ?_
    rw [hbkt]
    exact h
  | ok avail =>
    simp only [execute, hs]
    exact replicateAll_pres env _ st1 q c0 (by rw [hbkt]; exact h)

theorem insertByMinTime_perm (m : Meta) (l : List Meta) :
    List.Perm (insertByMinTime m l) (m :: l) := by
  induction l with
  | nil => exact List.Perm.refl _
  | cons x xs ih =>
    unfold insertByMinTime
    by_cases h : m.minTime < x.minTime
    · rw [if_pos h]
    · rw [if_neg h]
      exact (ih.cons x).trans (List.Perm.swap m x xs)

theorem sortByMinTime_perm (l : List Meta) : List.Perm (sortByMinTime l) l := by
  induction l with
  | nil => exact List.Perm.refl _
  | cons x xs ih =>
    exact (insertByMinTime_perm x (sortByMinTime xs)).trans (ih.cons x)

theorem insertByMinTime_sorted (m : Meta) (l : List Meta)
    (h : List.Pairwise (fun a b => a.minTime ≤ b.minTime) l) :
    List.Pairwise (fun a b => a.minTime ≤ b.minTime) (insertByMinTime m l) := by
  induction l with
  | nil => simp [insertByMinTime]
  | cons x xs ih =>
    rw [List.pairwise_cons] at h
    obtain ⟨hx, hxs⟩ := h
    unfold insertByMinTime
    by_cases hlt : m.minTime < x.minTime
    · rw [if_pos hlt, List.pairwise_cons]
      constructor
      · intro b hb
        rcases List.mem_cons.mp hb with hb1 | hb2
        · rw [hb1]; omega
        · have := hx b hb2; omega
      · rw [List.pairwise_cons]
        exact ⟨hx, hxs⟩
    · rw [if_neg hlt, List.pairwise_cons]
      constructor
      · intro b hb
        rcases List.mem_cons.mp ((insertByMinTime_perm m xs).mem_iff.mp hb) with hb1 | hb2
        · rw [hb1]; omega
        · exact hx b hb2
      · exact ih hxs

theorem sortByMinTime_sorted (l : List Meta) :
    List.Pairwise (fun a b => a.minTime ≤ b.minTime) (sortByMinTime l) := by
  induction l with
  | nil => simp [sortByMinTime]
  | cons x xs ih => exact insertByMinTime_sorted x (sortByMinTime xs) ih

theorem sortByMinTime_strict (l : List Meta)
    (hd : List.Pairwise (fun a b => a.minTime ≠ b.minTime) l) :
    List.Pairwise (fun a b => a.minTime < b.minTime) (sortByMinTime l) := by
  have hperm := sortByMinTime_perm l
  have hd2 : List.Pairwise (fun a b : Meta => a.minTime ≠ b.minTime) (sortByMinTime l) := by
    refine (List.Perm.pairwise_iff ?_ hperm).mpr hd
    intro a b hab h
    exact hab h.symm
  have hs := sortByMinTime_sorted l
  exact (hs.and hd2).imp (fun h => lt_of_le_of_ne h.1 h.2)

theorem execute_ok_eq (env : Env) (st : St) (avail : List Meta)
    (h : (scanBlocks env st (topLevelNames (env.fromBkt.map Prod.fst)) []).1 = .ok avail) :
    execute env st = replicateAll env
      (scanBlocks env st (topLevelNames (env.fromBkt.map Prod.fst)) []).2
      (sortByMinTime (avail.filter env.blockFilter)) := by
  rcases hs : scanBlocks env st (topLevelNames (env.fromBkt.map Prod.fst)) [] with ⟨r, st1⟩
  rw [hs] at h
  have hr : r = .ok avail := h
  subst hr
  simp [execute, hs]
/-- Claim C1: in a block transfer where a step after the initial
metadata reads fails — in particular a chunk-object or index-object
transfer — and the destination held no `meta.json` for the block
beforehand, the call returns an error and the destination still holds no
`meta.json` for that block afterward: the `meta.json` upload is
unconditionally the last step of `ensureBlockIsReplicated`. -/
theorem claim_C1_commit_last (env : Env) (st : St) (id : String) (e : Err)
    (hm : Bucket.lookup st.toBkt [id, "meta.json"] = none)
    (he : (ensureBlockIsReplicated env st id).1 = .error e) :
    Bucket.lookup (ensureBlockIsReplicated env st id).2.toBkt [id, "meta.json"] = none :=
  ensure_meta_none env st id e hm he

theorem claim_C1_commit_last_witness :
    Bucket.lookup st0.toBkt ["b", "meta.json"] = none ∧
    (ensureBlockIsReplicated envD st0 "b").1 =
      .error (.wrap "replicate index file"
        (.wrap "upload object to target bucket" (.fault "upload"))) ∧
    Bucket.lookup (ensureBlockIsReplicated envD st0 "b").2.toBkt ["b", "meta.json"] = none :=
  ⟨by decide, by rfl,
    claim_C1_commit_last envD st0 "b"
      (.wrap "replicate index file" (.wrap "upload object to target bucket" (.fault "upload")))
      (by decide) (by rfl)⟩

/-- Claim C6: when the destination already holds a `meta.json` for the
block byte-for-byte equal to the origin's (and the two metadata reads
succeed), `ensureBlockIsReplicated` returns success, increments the
`blocksAlreadyReplicated` counter, and performs no further destination
I/O: the destination bucket, and the trace beyond the single `meta.json`
read, are unchanged — no existence checks, no copies, no uploads. -/
theorem claim_C6_already_replicated_short_circuits (env : Env) (st : St) (id : String)
    (c : Bytes)
    (hfg : env.failFromGet [id, "meta.json"] = false)
    (hsrc : Bucket.lookup env.fromBkt [id, "meta.json"] = some c)
    (hft : env.failToGet [id, "meta.json"] = none)
    (hdst : Bucket.lookup st.toBkt [id, "meta.json"] = some c) :
    ensureBlockIsReplicated env st id =
      (.ok (), { st with
        metrics := { st.metrics with
          blocksAlreadyReplicated := st.metrics.blocksAlreadyReplicated + 1 },
        trace := st.trace ++ [Event.get [id, "meta.json"]] }) :=
  ensure_short env st id c hfg hsrc hft hdst

theorem claim_C6_witness :
    envA.failFromGet ["b", "meta.json"] = false ∧
    Bucket.lookup envA.fromBkt ["b", "meta.json"] = some [3] ∧
    envA.failToGet ["b", "meta.json"] = none ∧
    Bucket.lookup stE.toBkt ["b", "meta.json"] = some [3] ∧
    ensureBlockIsReplicated envA stE "b" =
      (.ok (), { stE with
        metrics := { stE.metrics with
          blocksAlreadyReplicated := stE.metrics.blocksAlreadyReplicated + 1 },
        trace := stE.trace ++ [Event.get ["b", "meta.json"]] }) :=
  ⟨by decide, by decide, by decide, by decide,
    claim_C6_already_replicated_short_circuits envA stE "b" [3]
      (by decide) (by decide) (by decide) (by decide)⟩

/-- Claim C7: `loadMeta` reports `isPartialOrMissing = true` exactly
when the fetch fails with the `ErrorSyncMetaNotFound` cause or the
identifier is absent from the fetched mapping; the pass treats that as a
skip that increments the partial-metadata counter and continues; every
other fetch failure makes `loadMeta` return a hard error, and the pass
aborts with that (wrapped) error as soon as any top-level name parses as
a block directory. -/
theorem claim_C7_load_meta_classification (env : Env) (id : String) (st : St) :
    ((loadMeta env id).2.1 = true ↔
      (∃ e, env.fetch = .error e ∧ e.cause = Err.syncMetaNotFound) ∨
      (∃ ms, env.fetch = .ok ms ∧ lookupMeta ms id = none)) ∧
    (∀ e, env.fetch = .error e → e.cause ≠ Err.syncMetaNotFound →
      (loadMeta env id).2.2 = some (.wrap "fetch meta" e) ∧
      ((∃ n ∈ topLevelNames (env.fromBkt.map Prod.fst), (env.parseBlock n).isSome = true) →
        (execute env st).1 = .error (.wrap "iterate over origin bucket"
          (.wrap "load meta for block from origin bucket" (.wrap "fetch meta" e))))) ∧
    (∀ (name : String) (rest : List String) (acc : List Meta) (id' : String),
      env.parseBlock name = some id' → (loadMeta env id').2.1 = true →
      scanBlocks env st (name :: rest) acc =
        scanBlocks env
          { st with metrics := { st.metrics with
              originIterations := st.metrics.originIterations + 1,
              originMetaLoads := st.metrics.originMetaLoads + 1,
              originPartialMeta := st.metrics.originPartialMeta + 1 } }
          rest acc) := by
  refine ⟨⟨?_, ?_⟩, ?_, ?_⟩
  · intro h
    cases hf : env.fetch with
    | error e =>
      by_cases hcs : e.cause = Err.syncMetaNotFound
      · exact Or.inl ⟨e, rfl, hcs⟩
      · have hl := loadMeta_hard env e hf hcs id
        rw [hl] at h
        cases h
    | ok ms =>
      cases hlk : lookupMeta ms id with
      | none => exact Or.inr ⟨ms, rfl, hlk⟩
      | some m =>
        have hl := loadMeta_found env ms hf id m hlk
        rw [hl] at h
        cases h
  · rintro (⟨e, hf, hcs⟩ | ⟨ms, hf, hlk⟩)
    · rw [loadMeta_sync env e hf hcs id]
    · rw [loadMeta_absent env ms hf id hlk]
  · intro e hf hcs
    have hl := loadMeta_hard env e hf hcs id
    refine ⟨by rw [hl], ?_⟩
    intro hex
    have hsc := scan_hard_error env e hf hcs (topLevelNames (env.fromBkt.map Prod.fst)) st [] hex
    have hpure : scanPure env (topLevelNames (env.fromBkt.map Prod.fst)) [] =
        .error (.wrap "load meta for block from origin bucket" (.wrap "fetch meta" e)) :=
      (scan_fst env (topLevelNames (env.fromBkt.map Prod.fst)) st []).symm.trans hsc
    exact execute_scan_error env st _ hpure
  · intro name rest acc id' hp hpart
    exact scan_skip_step env st name rest acc id' hp hpart

theorem claim_C7_witness :
    envF.fetch = .error (.fault "boom") ∧
    (Err.fault "boom").cause ≠ Err.syncMetaNotFound ∧
    (execute envF st0).1 = .error (.wrap "iterate over origin bucket"
      (.wrap "load meta for block from origin bucket" (.wrap "fetch meta" (.fault "boom")))) :=
  ⟨by rfl, by decide,
    ((claim_C7_load_meta_classification envF "b" st0).2.1 (.fault "boom") (by rfl)
      (by decide)).2 ⟨"b", by decide, by decide⟩⟩

/-- Claim C8: `ensureObjectReplicated` succeeds without any state
change (no upload, no counter increment, no source read has any effect)
whenever the destination existence check reports the object present,
regardless of the destination object's content; only when the object is
absent does it copy the origin's bytes to the destination under the same
path and increment `objectsReplicated`. -/
theorem claim_C8_object_transfer (env : Env) (st : St) (p : Path)
    (hfe : env.failExists p = false) :
    (∀ c, Bucket.lookup st.toBkt p = some c →
      ensureObjectReplicated env st p =
        (.ok (), { st with trace := st.trace ++ [Event.existsCheck p] })) ∧
    (env.failFromGet p = false → env.failUpload p = false →
      Bucket.lookup st.toBkt p = none →
      ∀ c, Bucket.lookup env.fromBkt p = some c →
      ensureObjectReplicated env st p =
        (.ok (), { st with toBkt := Bucket.insert st.toBkt p c,
                           metrics := { st.metrics with
                             objectsReplicated := st.metrics.objectsReplicated + 1 },
                           trace := st.trace ++ [Event.existsCheck p, Event.upload p c] })) := by
  constructor
  · intro c hc
    simp [ensureObjectReplicated, dstExists, hfe, hc]
  · intro hfg hfu hnone c hsrc
    simp [ensureObjectReplicated, dstExists, hfe, hnone, fromGet, hfg, hsrc, dstUpload, hfu]

theorem claim_C8_witness :
    envA.failExists ["b", "chunks", "000001"] = false ∧
    Bucket.lookup stG.toBkt ["b", "chunks", "000001"] = some [9] ∧
    ensureObjectReplicated envA stG ["b", "chunks", "000001"] =
      (.ok (), { stG with trace := stG.trace ++ [Event.existsCheck ["b", "chunks", "000001"]] }) :=
  ⟨by decide, by decide,
    (claim_C8_object_transfer envA stG ["b", "chunks", "000001"] (by decide)).1 [9] (by decide)⟩

/-- Claim C9 is refuted as stated: a pass can upload to a path at which
the destination already holds an object.  Concretely, when the
destination holds a `meta.json` for block `b` with bytes `[9]` differing
from the origin's `[3]`, the pass succeeds, performs an upload to that
occupied path, and overwrites the stored object with the origin's
bytes. -/
theorem claim_C9_counterexample :
    Bucket.lookup stC.toBkt ["b", "meta.json"] = some [9] ∧
    (execute envC stC).1 = .ok () ∧
    Event.upload ["b", "meta.json"] [3] ∈ (execute envC stC).2.trace ∧
    Bucket.lookup (execute envC stC).2.toBkt ["b", "meta.json"] = some [3] :=
  ⟨by decide, by rfl, by decide, by decide⟩

/-- Claim C9 (amended): a pass never deletes a destination object, and
never overwrites one, except that the final `meta.json` commit of a
block transfer may overwrite an existing destination `meta.json` whose
bytes differ from the origin's, replacing it with the origin's
`meta.json` bytes: every object present before the pass is present
afterwards with unchanged content, or is that block's `meta.json`
rewritten to the (different) origin bytes. -/
theorem claim_C9_no_delete_overwrite_only_meta (env : Env) (st : St) (q : Path) (c0 : Bytes)
    (h : Bucket.lookup st.toBkt q = some c0) :
    Bucket.lookup (execute env st).2.toBkt q = some c0 ∨
    (∃ id c1, q = [id, "meta.json"] ∧ Bucket.lookup env.fromBkt q = some c1 ∧ c1 ≠ c0 ∧
      Bucket.lookup (execute env st).2.toBkt q = some c1) :=
  execute_pres env st q c0 h

theorem claim_C9_amended_witness :
    Bucket.lookup stC.toBkt ["b", "meta.json"] = some [9] ∧
    (Bucket.lookup (execute envC stC).2.toBkt ["b", "meta.json"] = some [9] ∨
      (∃ id c1, (["b", "meta.json"] : Path) = [id, "meta.json"] ∧
        Bucket.lookup envC.fromBkt ["b", "meta.json"] = some c1 ∧ c1 ≠ [9] ∧
        Bucket.lookup (execute envC stC).2.toBkt ["b", "meta.json"] = some c1)) :=
  ⟨by decide, claim_C9_no_delete_overwrite_only_meta envC stC ["b", "meta.json"] [9] (by decide)⟩

/-- Claim C10: a successful `ensureBlockIsReplicated` increments
exactly one of `blocksAlreadyReplicated` and `blocksReplicated`, by
exactly one; a failed call increments neither. -/
theorem claim_C10_block_counters (env : Env) (st : St) (id : String) :
    ((ensureBlockIsReplicated env st id).1 = .ok () →
      ((ensureBlockIsReplicated env st id).2.metrics.blocksAlreadyReplicated =
          st.metrics.blocksAlreadyReplicated + 1 ∧
        (ensureBlockIsReplicated env st id).2.metrics.blocksReplicated =
          st.metrics.blocksReplicated) ∨
      ((ensureBlockIsReplicated env st id).2.metrics.blocksAlreadyReplicated =
          st.metrics.blocksAlreadyReplicated ∧
        (ensureBlockIsReplicated env st id).2.metrics.blocksReplicated =
          st.metrics.blocksReplicated + 1)) ∧
    (∀ e, (ensureBlockIsReplicated env st id).1 = .error e →
      (ensureBlockIsReplicated env st id).2.metrics.blocksAlreadyReplicated =
        st.metrics.blocksAlreadyReplicated ∧
      (ensureBlockIsReplicated env st id).2.metrics.blocksReplicated =
        st.metrics.blocksReplicated) :=
  ensure_counters env st id

theorem claim_C10_witness :
    (ensureBlockIsReplicated envA st0 "b").1 = .ok () ∧
    (((ensureBlockIsReplicated envA st0 "b").2.metrics.blocksAlreadyReplicated =
        st0.metrics.blocksAlreadyReplicated + 1 ∧
      (ensureBlockIsReplicated envA st0 "b").2.metrics.blocksReplicated =
        st0.metrics.blocksReplicated) ∨
    ((ensureBlockIsReplicated envA st0 "b").2.metrics.blocksAlreadyReplicated =
        st0.metrics.blocksAlreadyReplicated ∧
      (ensureBlockIsReplicated envA st0 "b").2.metrics.blocksReplicated =
        st0.metrics.blocksReplicated + 1)) :=
  ⟨by rfl, (claim_C10_block_counters envA st0 "b").1 (by rfl)⟩
/-- Claim C3: candidates are sorted ascending by `minTime` before any
transfer starts — strictly ascending when the candidates' `minTime`
values are distinct — and the block transfers of `execute` (its
`beginBlock` events) run sequentially in exactly that sorted order (a
prefix of it, since a failure may stop the loop). -/
theorem claim_C3_ordering (env : Env) (st : St) (avail : List Meta)
    (h1 : (scanBlocks env st (topLevelNames (env.fromBkt.map Prod.fst)) []).1 = .ok avail)
    (hdist : List.Pairwise (fun a b => a.minTime ≠ b.minTime) (avail.filter env.blockFilter)) :
    List.Pairwise (fun a b => a.minTime < b.minTime)
      (sortByMinTime (avail.filter env.blockFilter)) ∧
    ∃ tr k, (execute env st).2.trace = st.trace ++ tr ∧
      beginsOf tr = ((sortByMinTime (avail.filter env.blockFilter)).map
        (fun b => (b.minTime, b.ulid))).take k := by
  constructor
  · exact sortByMinTime_strict _ hdist
  · rw [execute_ok_eq env st avail h1]
    obtain ⟨tr, k, htr, hbk, -⟩ := replicateAll_traceE env
      (sortByMinTime (avail.filter env.blockFilter))
      (scanBlocks env st (topLevelNames (env.fromBkt.map Prod.fst)) []).2
    have hstr := (scan_state env (topLevelNames (env.fromBkt.map Prod.fst)) st []).2.1
    refine ⟨tr, k, ?_, hbk⟩
    rw [htr, hstr]

theorem claim_C3_witness :
    (scanBlocks envA st0 (topLevelNames (envA.fromBkt.map Prod.fst)) []).1 = .ok [metaB] ∧
    List.Pairwise (fun a b => a.minTime ≠ b.minTime) ([metaB].filter envA.blockFilter) ∧
    (List.Pairwise (fun a b => a.minTime < b.minTime)
      (sortByMinTime ([metaB].filter envA.blockFilter)) ∧
    ∃ tr k, (execute envA st0).2.trace = st0.trace ++ tr ∧
      beginsOf tr = ((sortByMinTime ([metaB].filter envA.blockFilter)).map
        (fun b => (b.minTime, b.ulid))).take k) :=
  ⟨by rfl, by decide, claim_C3_ordering envA st0 [metaB] (by rfl) (by decide)⟩
/-- Claim C4: if the block transfer of candidate `b` fails after every
earlier candidate in the `minTime`-sorted order succeeded, `execute`
returns that error wrapped, and the block transfers attempted in the
pass are exactly the earlier candidates followed by `b` — no candidate
sorted after `b` is attempted. -/
theorem claim_C4_fail_fast (env : Env) (st : St) (avail bs₁ bs₂ : List Meta) (b : Meta)
    (e : Err)
    (h1 : (scanBlocks env st (topLevelNames (env.fromBkt.map Prod.fst)) []).1 = .ok avail)
    (h2 : sortByMinTime (avail.filter env.blockFilter) = bs₁ ++ b :: bs₂)
    (h3 : (replicateAll env
        (scanBlocks env st (topLevelNames (env.fromBkt.map Prod.fst)) []).2 bs₁).1 = .ok ())
    (h4 : (ensureBlockIsReplicated env
        (logBegin (replicateAll env
          (scanBlocks env st (topLevelNames (env.fromBkt.map Prod.fst)) []).2 bs₁).2 b)
        b.ulid).1 = .error e) :
    (execute env st).1 = .error (.wrap "ensure block is replicated" e) ∧
    ∃ tr, (execute env st).2.trace = st.trace ++ tr ∧
      beginsOf tr = (bs₁ ++ [b]).map (fun x => (x.minTime, x.ulid)) := by
  rw [execute_ok_eq env st avail h1, h2]
  rcases hra : replicateAll env
      (scanBlocks env st (topLevelNames (env.fromBkt.map Prod.fst)) []).2 bs₁ with ⟨ra, st1⟩
  have h3' : ra = .ok () := by rw [hra] at h3; exact h3
  subst h3'
  have h4' : (ensureBlockIsReplicated env (logBegin st1 b) b.ulid).1 = .error e := by
    rw [hra] at h4; exact h4
  rw [replicateAll_append env bs₁ _ st1 (b :: bs₂) hra]
  rcases hee : ensureBlockIsReplicated env (logBegin st1 b) b.ulid with ⟨re, st2⟩
  have hre : re = .error e := by rw [hee] at h4'; exact h4'
  subst hre
  constructor
  · simp [replicateAll, hee]
  · obtain ⟨tr0, htr0, hb0⟩ := ensure_traceE env (logBegin st1 b) b.ulid
    rw [hee] at htr0
    obtain ⟨trA, kA, htrA, hbkA, hbokA⟩ := replicateAll_traceE env bs₁
      (scanBlocks env st (topLevelNames (env.fromBkt.map Prod.fst)) []).2
    have hbokA2 : beginsOf trA = bs₁.map (fun x => (x.minTime, x.ulid)) :=
      hbokA (by rw [hra])
    have hscan_tr := (scan_state env (topLevelNames (env.fromBkt.map Prod.fst)) st []).2.1
    refine ⟨trA ++ (Event.beginBlock b.minTime b.ulid :: tr0), ?_, ?_⟩
    · simp only [replicateAll, hee]
      rw [htr0]
      show (st1.trace ++ [Event.beginBlock b.minTime b.ulid]) ++ tr0 = _
      have hst1tr : st1.trace = st.trace ++ trA := by
        rw [hra] at htrA
        rw [hscan_tr] at htrA
        exact htrA
      rw [hst1tr]
      simp [List.append_assoc]
    · rw [beginsOf_append, hbokA2]
      show _ ++ ((b.minTime, b.ulid) :: beginsOf tr0) = _
      rw [hb0]
      simp

theorem claim_C4_witness :
    (scanBlocks envB st0 (topLevelNames (envB.fromBkt.map Prod.fst)) []).1 =
      .ok [metaA4, metaC4, metaD4] ∧
    sortByMinTime ([metaA4, metaC4, metaD4].filter envB.blockFilter) =
      [metaA4] ++ metaC4 :: [metaD4] ∧
    ((execute envB st0).1 = .error (.wrap "ensure block is replicated"
        (.wrap "replicate index file" (.wrap "get object from origin bucket" .notFound))) ∧
      ∃ tr, (execute envB st0).2.trace = st0.trace ++ tr ∧
        beginsOf tr = ([metaA4] ++ [metaC4]).map (fun x => (x.minTime, x.ulid))) :=
  ⟨by rfl, by decide,
    claim_C4_fail_fast envB st0 [metaA4, metaC4, metaD4] [metaA4] [metaD4] metaC4
      (.wrap "replicate index file" (.wrap "get object from origin bucket" .notFound))
      (by rfl) (by decide) (by rfl) (by rfl)⟩
/-- Claim C2: for a fixed source on which one pass succeeds under
honestly behaving buckets, a second pass over the destination left by
the first succeeds, leaves the destination bucket identical, performs
zero uploads, keeps `blocksReplicated` and `objectsReplicated`
unchanged, and increments `blocksAlreadyReplicated` exactly once per
candidate (each candidate being a previously committed block). -/
theorem claim_C2_idempotent (env : Env) (st : St) (m₂ : replicationMetrics)
    (tr₂ : List Event) (hh : env.Honest) (h1 : (execute env st).1 = .ok ()) :
    (execute env (secondPassState env st m₂ tr₂)).1 = .ok () ∧
    (execute env (secondPassState env st m₂ tr₂)).2.toBkt = (execute env st).2.toBkt ∧
    (∀ p c, Event.upload p c ∈ (execute env (secondPassState env st m₂ tr₂)).2.trace →
      Event.upload p c ∈ tr₂) ∧
    (execute env (secondPassState env st m₂ tr₂)).2.metrics.blocksReplicated =
      m₂.blocksReplicated ∧
    (execute env (secondPassState env st m₂ tr₂)).2.metrics.objectsReplicated =
      m₂.objectsReplicated ∧
    ∃ cands, candidatesOf env = .ok cands ∧
      (execute env (secondPassState env st m₂ tr₂)).2.metrics.blocksAlreadyReplicated =
        m₂.blocksAlreadyReplicated + cands.length := by
  rcases hs : scanBlocks env st (topLevelNames (env.fromBkt.map Prod.fst)) [] with ⟨r, stS⟩
  cases r with
  | error e => simp [execute, hs] at h1
  | ok avail =>
    have hex1 : execute env st = replicateAll env stS
        (sortByMinTime (avail.filter env.blockFilter)) := by
      have h0 := execute_ok_eq env st avail (by rw [hs])
      rw [hs] at h0
      exact h0
    rcases hr : replicateAll env stS (sortByMinTime (avail.filter env.blockFilter))
      with ⟨rr, st1⟩
    have hrr : rr = .ok () := by
      rw [hex1, hr] at h1
      exact h1
    subst hrr
    have hst1 : (execute env st).2 = st1 := by rw [hex1, hr]
    have hMeta : ∀ b ∈ sortByMinTime (avail.filter env.blockFilter),
        MetaOK env st1.toBkt b :=
      replicateAll_ok_MetaOK env _ stS st1 hr
    rcases hs2 : scanBlocks env (secondPassState env st m₂ tr₂)
        (topLevelNames (env.fromBkt.map Prod.fst)) [] with ⟨r2, stS2⟩
    have hr2 : r2 = .ok avail := by
      have e1 := scan_fst env (topLevelNames (env.fromBkt.map Prod.fst)) st []
      have e2 := scan_fst env (topLevelNames (env.fromBkt.map Prod.fst))
        (secondPassState env st m₂ tr₂) []
      rw [hs] at e1
      rw [hs2] at e2
      exact e2.trans e1.symm
    subst hr2
    have hscan2 := scan_state env (topLevelNames (env.fromBkt.map Prod.fst))
      (secondPassState env st m₂ tr₂) []
    rw [hs2] at hscan2
    obtain ⟨sb, strc, salr, srep, sobj⟩ := hscan2
    have hsb1 : stS2.toBkt = st1.toBkt := by
      rw [sb]
      show (execute env st).2.toBkt = st1.toBkt
      rw [hst1]
    have hMeta2 : ∀ b ∈ sortByMinTime (avail.filter env.blockFilter),
        MetaOK env stS2.toBkt b := by
      intro b hb
      rw [hsb1]
      exact hMeta b hb
    obtain ⟨p1, p2, p3, p4, p5, p6⟩ := replicateAll_allMeta env hh
      (sortByMinTime (avail.filter env.blockFilter)) stS2 hMeta2
    have hex2 : execute env (secondPassState env st m₂ tr₂) = replicateAll env stS2
        (sortByMinTime (avail.filter env.blockFilter)) := by
      have h0 := execute_ok_eq env (secondPassState env st m₂ tr₂) avail (by rw [hs2])
      rw [hs2] at h0
      exact h0
    rw [hex2]
    refine ⟨p1, ?_, ?_, ?_, ?_, ?_⟩
    · rw [p2, hsb1, hst1]
    · intro p c hmem
      rw [p3] at hmem
      rcases List.mem_append.mp hmem with hm1 | hm2
      · rw [strc] at hm1
        exact hm1
      · exact absurd hm2 (pass2Events_no_upload p c _)
    · rw [p5, srep]
      rfl
    · rw [p6, sobj]
      rfl
    · refine ⟨sortByMinTime (avail.filter env.blockFilter), ?_, ?_⟩
      · unfold candidatesOf
        have e1 := scan_fst env (topLevelNames (env.fromBkt.map Prod.fst)) st []
        rw [hs] at e1
        rw [← e1]
        rfl
      · rw [p4, salr]
        rfl

theorem claim_C2_witness :
    envA.Honest ∧ (execute envA st0).1 = .ok () ∧
    ((execute envA (secondPassState envA st0 {} [])).1 = .ok () ∧
     (execute envA (secondPassState envA st0 {} [])).2.toBkt = (execute envA st0).2.toBkt ∧
     (∀ p c, Event.upload p c ∈ (execute envA (secondPassState envA st0 {} [])).2.trace →
       Event.upload p c ∈ ([] : List Event)) ∧
     (execute envA (secondPassState envA st0 {} [])).2.metrics.blocksReplicated =
       ({} : replicationMetrics).blocksReplicated ∧
     (execute envA (secondPassState envA st0 {} [])).2.metrics.objectsReplicated =
       ({} : replicationMetrics).objectsReplicated ∧
     ∃ cands, candidatesOf envA = .ok cands ∧
       (execute envA (secondPassState envA st0 {} [])).2.metrics.blocksAlreadyReplicated =
         ({} : replicationMetrics).blocksAlreadyReplicated + cands.length) :=
  ⟨⟨fun p => rfl, fun p => rfl, fun p => rfl, fun p => rfl⟩, by rfl,
    claim_C2_idempotent envA st0 {} []
      ⟨fun p => rfl, fun p => rfl, fun p => rfl, fun p => rfl⟩ (by rfl)⟩
end Replicate
